import Mathlib

/-!
Shallow embedding of the MarketSim clearing house, miner and simulation
setup code (src/exchange/clearing_house.rs, src/players/miner.rs,
src/simulation/simulation.rs, src/order/order.rs).

Modelling conventions:
* `f64` monetary and quantity values are modelled as `ℚ` (exact arithmetic);
* Rust `HashMap<String, Player>` is an association list of `Player` records
  whose `trader_id` keys are (by the `HashMap` invariant) pairwise distinct;
* `panic!` / `.expect(..)` on the settlement path is an explicit
  `Except.error`; an `Ok`/`Some` result is `Except.ok`;
* the three player variants are a single `Player` record tagged by
  `TraderT`; variant-specific trait methods dispatch on the tag.
The `Investor`/`Maker` implementations of `update_order_vol` and
`cancel_order` are not part of the sources; where needed they are modelled
from the spec and marked as such.
-/

namespace MarketSim

/-- Order classification enums, from src/order/order.rs. -/
inductive OrderType | Enter | Update | Cancel
deriving DecidableEq, Repr

inductive TradeType | Bid | Ask
deriving DecidableEq, Repr

inductive ExchangeType | LimitOrder | FlowOrder
deriving DecidableEq, Repr

/-- Market type enum (src/exchange/mod.rs, used throughout). -/
inductive MarketType | CDA | FBA | KLF
deriving DecidableEq, Repr

/-- Player kind tag, from src/players/mod.rs (`TraderT`). -/
inductive TraderT | Investor | Maker | Miner
deriving DecidableEq, Repr

/-- Maker behavioural sub-type (src/players/maker.rs, `MakerT`). -/
inductive MakerT | Aggressive | RiskAverse | Random
deriving DecidableEq, Repr

/-- The `Order` struct from src/order/order.rs.  `f64` fields become `ℚ`,
`u64` order ids become `ℕ`. -/
structure Order where
  trader_id : String
  order_id : ℕ
  order_type : OrderType
  trade_type : TradeType
  ex_type : ExchangeType
  p_low : ℚ
  p_high : ℚ
  price : ℚ
  quantity : ℚ
  gas : ℚ
deriving DecidableEq, Repr

/-- A player record: the common state of the `Player` trait implementors
(`Investor`, `Maker`, `Miner`).  `maker_type` is `some _` exactly for
makers (it models the `downcast_ref::<Maker>` succeeding). -/
structure Player where
  trader_id : String
  balance : ℚ
  inventory : ℚ
  orders : List Order
  player_type : TraderT
  maker_type : Option MakerT
deriving DecidableEq, Repr

/-- One entry of `TradeResults.cross_results`
(src/exchange/exchange_logic.rs, `PlayerUpdate`). -/
structure PlayerUpdate where
  payer_id : String
  payer_order_id : ℕ
  vol_filler_id : String
  vol_filler_order_id : ℕ
  price : ℚ
  volume : ℚ
  cancel : Bool
deriving DecidableEq, Repr

/-- `TradeResults` (src/exchange/exchange_logic.rs). -/
structure TradeResults where
  auction_type : MarketType
  uniform_price : Option ℚ
  cross_results : Option (List PlayerUpdate)
deriving DecidableEq, Repr

/-- Per-maker-type profit counters: models the `maker_profits` vector
`vec![0.0, 0.0, 0.0]` indexed by `MakerT as usize`. -/
structure MakerProfits where
  aggressive : ℚ
  riskAverse : ℚ
  random : ℚ
deriving DecidableEq, Repr

/-- `maker_profits[mt] += amt`. -/
def MakerProfits.add (mp : MakerProfits) (mt : MakerT) (amt : ℚ) : MakerProfits :=
  match mt with
  | MakerT.Aggressive => { mp with aggressive := mp.aggressive + amt }
  | MakerT.RiskAverse => { mp with riskAverse := mp.riskAverse + amt }
  | MakerT.Random => { mp with random := mp.random + amt }

/-- The `ClearingHouse` struct (src/exchange/clearing_house.rs): the player
map plus the three aggregate counters. -/
structure ClearingHouse where
  players : List Player
  gas_fees : List ℚ
  total_tax : ℚ
  maker_profits : MakerProfits
deriving DecidableEq, Repr

namespace ClearingHouse

/-- `ClearingHouse::new`. -/
def new : ClearingHouse :=
  { players := [], gas_fees := [], total_tax := 0,
    maker_profits := { aggressive := 0, riskAverse := 0, random := 0 } }

end ClearingHouse

/-- `players.get(&id)`: first (unique, by the `HashMap` invariant) record
with the given key. -/
def findPlayer (ps : List Player) (id : String) : Option Player :=
  ps.find? (fun p => p.trader_id = id)

/-- `players.get_mut(&id)` followed by an in-place mutation `f`: rewrite
the first record with the given key, leave the list unchanged when the key
is absent. -/
def modifyPlayer (ps : List Player) (id : String) (f : Player → Player) : List Player :=
  match ps with
  | [] => []
  | p :: rest =>
    if p.trader_id = id then f p :: rest
    else p :: modifyPlayer rest id f

/-- `players.remove(&id)`: drop the first record with the given key. -/
def removePlayer (ps : List Player) (id : String) : List Player :=
  match ps with
  | [] => []
  | p :: rest =>
    if p.trader_id = id then rest
    else p :: removePlayer rest id

/-- The keys of the player map; the `HashMap` invariant is that this list
has no duplicates. -/
def playerKeys (ps : List Player) : List String := ps.map Player.trader_id

namespace ClearingHouse

/-- `players.entry(id).or_insert(player)`: the common body of
`reg_investor` / `reg_maker` / `reg_miner`
(src/exchange/clearing_house.rs lines 46-77). A pre-existing key keeps its
record; otherwise the record is inserted. -/
def reg_player (ch : ClearingHouse) (p : Player) : ClearingHouse :=
  match findPlayer ch.players p.trader_id with
  | some _ => ch
  | none => { ch with players := ch.players ++ [p] }

/-- `reg_n_investors` / `reg_n_makers`: fold `entry.or_insert` over the
vector. -/
def reg_n_players (ch : ClearingHouse) (l : List Player) : ClearingHouse :=
  l.foldl reg_player ch

/-- `ClearingHouse::get_player` (lines 80-87): `players.remove(&id)`:
pops the record out of the map and returns it. -/
def get_player (ch : ClearingHouse) (id : String) : Option Player × ClearingHouse :=
  match findPlayer ch.players id with
  | some p => (some p, { ch with players := removePlayer ch.players id })
  | none => (none, ch)

/-- `ClearingHouse::num_players`. -/
def num_players (ch : ClearingHouse) : ℕ := ch.players.length

end ClearingHouse

/-- The in-place mutation done by `update_player` on the looked-up record:
`player.update_inv(inv_to_add); player.update_bal(bal_to_add)`. -/
def balInvUpd (bal_to_add inv_to_add : ℚ) (q : Player) : Player :=
  { q with inventory := q.inventory + inv_to_add, balance := q.balance + bal_to_add }

/-- The maker-profit tracking of `update_player` (lines 218-236): when the
player is a `Maker` and the downcast succeeds, `bal_to_add` is accumulated
into the profit entry of its maker type. -/
def mpUpd (mp : MakerProfits) (p : Player) (bal_to_add : ℚ) : MakerProfits :=
  if p.player_type = TraderT.Maker then
    match p.maker_type with
    | some mt => mp.add mt bal_to_add
    | none => mp
  else mp

namespace ClearingHouse

/-- `ClearingHouse::update_player` (lines 210-241): mutate inventory and
balance of the named player; when the player is a `Maker` (the downcast
succeeds), accumulate `bal_to_add` into the maker-type profit entry.
Returns the updated `(balance, inventory)` pair, `none` when the player is
absent. -/
def update_player (ch : ClearingHouse) (id : String) (bal_to_add inv_to_add : ℚ) :
    Option ((ℚ × ℚ) × ClearingHouse) :=
  match findPlayer ch.players id with
  | none => none
  | some p =>
    some (((balInvUpd bal_to_add inv_to_add p).balance,
           (balInvUpd bal_to_add inv_to_add p).inventory),
          { ch with players := modifyPlayer ch.players id (balInvUpd bal_to_add inv_to_add),
                    maker_profits := mpUpd ch.maker_profits p bal_to_add })

end ClearingHouse

/-- `orders.iter().position(|o| o.order_id == o_id)` then
`orders.remove(i)`: the shared removal pattern of the players'
`cancel_order` implementations.  `none` when the id is absent. -/
def removeOrder (os : List Order) (oid : ℕ) : Option (List Order) :=
  match os with
  | [] => none
  | o :: rest =>
    if o.order_id = oid then some rest
    else (removeOrder rest oid).map (o :: ·)

/-- `Miner::update_order_vol` (src/players/miner.rs lines 252-264): find
the order by id and do `orders[i].quantity += vol_to_add`; the order is
kept regardless of the resulting quantity.  `none` when the id is
absent. -/
def minerUpdVol (os : List Order) (oid : ℕ) (vol_to_add : ℚ) : Option (List Order) :=
  match os with
  | [] => none
  | o :: rest =>
    if o.order_id = oid then some ({ o with quantity := o.quantity + vol_to_add } :: rest)
    else (minerUpdVol rest oid vol_to_add).map (o :: ·)

/-- Modelled from the spec: the `Investor`/`Maker` implementations of
`update_order_vol` are not in the sources; per the spec contract for
`update_player_order_vol`, delta is added to the remaining quantity and
"if result ≤ 0, remove the order entirely". -/
def traderUpdVol (os : List Order) (oid : ℕ) (vol_to_add : ℚ) : Option (List Order) :=
  match os with
  | [] => none
  | o :: rest =>
    if o.order_id = oid then
      some (if o.quantity + vol_to_add ≤ 0 then rest
            else { o with quantity := o.quantity + vol_to_add } :: rest)
    else (traderUpdVol rest oid vol_to_add).map (o :: ·)

namespace Player

/-- The `Player` trait's `update_order_vol`, dispatched on the variant
tag: the `Miner` implementation (src/players/miner.rs) keeps the order
whatever its new quantity; the `Investor`/`Maker` behaviour is modelled
from the spec (drop on ≤ 0).  Error string as in miner.rs line 262. -/
def update_order_vol (p : Player) (oid : ℕ) (vol_to_add : ℚ) : Except String Player :=
  let res :=
    match p.player_type with
    | TraderT.Miner => minerUpdVol p.orders oid vol_to_add
    | _ => traderUpdVol p.orders oid vol_to_add
  match res with
  | some os => Except.ok { p with orders := os }
  | none => Except.error "ERROR: order not found to cancel"

/-- The `Player` trait's `cancel_order`: remove the order by id (all
variants share this list-removal behaviour; the miner's implementation is
src/players/miner.rs lines 237-250). -/
def cancel_order (p : Player) (oid : ℕ) : Except String Player :=
  match removeOrder p.orders oid with
  | some os => Except.ok { p with orders := os }
  | none => Except.error "ERROR: order not found to cancel"

/-- The trait's `add_order`: push onto the owned order list. -/
def add_order (p : Player) (o : Order) : Player :=
  { p with orders := p.orders ++ [o] }

end Player

namespace ClearingHouse

/-- `ClearingHouse::update_player_order_vol` (lines 481-490): look the
trader up and delegate to the player's `update_order_vol`; absent trader
is an error. -/
def update_player_order_vol (ch : ClearingHouse) (trader_id : String) (order_id : ℕ)
    (vol_to_add : ℚ) : Except String ClearingHouse :=
  match findPlayer ch.players trader_id with
  | some p =>
    match p.update_order_vol order_id vol_to_add with
    | Except.ok p' =>
      Except.ok { ch with players := modifyPlayer ch.players trader_id (fun _ => p') }
    | Except.error e => Except.error e
  | none => Except.error "Couldn't find trader to add order"

/-- `ClearingHouse::cancel_player_order` (lines 493-504). -/
def cancel_player_order (ch : ClearingHouse) (trader_id : String) (order_id : ℕ) :
    Except String ClearingHouse :=
  match findPlayer ch.players trader_id with
  | some p =>
    match p.cancel_order order_id with
    | Except.ok p' =>
      Except.ok { ch with players := modifyPlayer ch.players trader_id (fun _ => p') }
    | Except.error e => Except.error e
  | none => Except.error "Couldn't find trader to cancel order"

/-- `ClearingHouse::new_order` (lines 438-448). -/
def new_order (ch : ClearingHouse) (o : Order) : Except String ClearingHouse :=
  match findPlayer ch.players o.trader_id with
  | some _ =>
    Except.ok { ch with players := modifyPlayer ch.players o.trader_id (·.add_order o) }
  | none => Except.error "Couldn't find trader to add order"

/-- One iteration of the `cda_cross_update` loop
(src/exchange/clearing_house.rs lines 293-332).  A `cancel` update removes
the order (a failed removal is printed and skipped); a zero-volume update
is skipped; otherwise the bidder is debited and the asker credited, and
both resting-order quantities are decremented with `.expect(..)`
(`Except.error` = the panic). -/
def cdaStep (ch : ClearingHouse) (pu : PlayerUpdate) : Except String ClearingHouse :=
  if pu.cancel then
    match ch.cancel_player_order pu.payer_id pu.payer_order_id with
    | Except.ok ch' => Except.ok ch'
    | Except.error _ => Except.ok ch
  else if pu.volume = 0 then Except.ok ch
  else
    let payment := pu.price * pu.volume
    match ch.update_player pu.payer_id (-payment) pu.volume with
    | none => Except.error "failed to update bidder balance/inventory"
    | some (_, ch1) =>
      match ch1.update_player_order_vol pu.payer_id pu.payer_order_id (-pu.volume) with
      | Except.error _ => Except.error "Failed to update"
      | Except.ok ch2 =>
        match ch2.update_player pu.vol_filler_id payment (-pu.volume) with
        | none => Except.error "failed to update asker balance/inventory"
        | some (_, ch3) =>
          match ch3.update_player_order_vol pu.vol_filler_id pu.vol_filler_order_id (-pu.volume) with
          | Except.error _ => Except.error "Failed to update"
          | Except.ok ch4 => Except.ok ch4

/-- The `for pu in player_updates` loop of `cda_cross_update`; a panic
aborts the remaining iterations. -/
def cdaProcess (ch : ClearingHouse) : List PlayerUpdate → Except String ClearingHouse
  | [] => Except.ok ch
  | pu :: rest =>
    match cdaStep ch pu with
    | Except.ok ch' => cdaProcess ch' rest
    | Except.error e => Except.error e

/-- `ClearingHouse::cda_cross_update` (lines 289-335). -/
def cda_cross_update (ch : ClearingHouse) (results : TradeResults) :
    Except String ClearingHouse :=
  match results.cross_results with
  | none => Except.ok ch
  | some player_updates => cdaProcess ch player_updates

/-- One iteration of the `fba_batch_update` loop (lines 342-378); same
structure as `cdaStep` (the source duplicates the loop body). -/
def fbaStep (ch : ClearingHouse) (pu : PlayerUpdate) : Except String ClearingHouse :=
  if pu.cancel then
    match ch.cancel_player_order pu.payer_id pu.payer_order_id with
    | Except.ok ch' => Except.ok ch'
    | Except.error _ => Except.ok ch
  else if pu.volume = 0 then Except.ok ch
  else
    let payment := pu.price * pu.volume
    match ch.update_player pu.payer_id (-payment) pu.volume with
    | none => Except.error "failed to update bidder balance/inventory"
    | some (_, ch1) =>
      match ch1.update_player_order_vol pu.payer_id pu.payer_order_id (-pu.volume) with
      | Except.error _ => Except.error "Failed to update"
      | Except.ok ch2 =>
        match ch2.update_player pu.vol_filler_id payment (-pu.volume) with
        | none => Except.error "failed to update asker balance/inventory"
        | some (_, ch3) =>
          match ch3.update_player_order_vol pu.vol_filler_id pu.vol_filler_order_id (-pu.volume) with
          | Except.error _ => Except.error "Failed to update"
          | Except.ok ch4 => Except.ok ch4

/-- The `for pu in player_updates` loop of `fba_batch_update`. -/
def fbaProcess (ch : ClearingHouse) : List PlayerUpdate → Except String ClearingHouse
  | [] => Except.ok ch
  | pu :: rest =>
    match fbaStep ch pu with
    | Except.ok ch' => fbaProcess ch' rest
    | Except.error e => Except.error e

/-- `ClearingHouse::fba_batch_update` (lines 338-381). -/
def fba_batch_update (ch : ClearingHouse) (results : TradeResults) :
    Except String ClearingHouse :=
  match results.cross_results with
  | none => Except.ok ch
  | some player_updates => fbaProcess ch player_updates

/-- One iteration of the `flow_batch_update` loop (lines 392-426).  Note:
there is NO zero-volume skip here; a `payer_id` equal to the sentinel
`"N/A"` marks an ask fill; a failed `update_player` is silently ignored
(`if let Some .. {}` with no else); the order-volume decrement is
`.expect(..)`. -/
def flowStep (ch : ClearingHouse) (pu : PlayerUpdate) : Except String ClearingHouse :=
  if pu.cancel then
    match ch.cancel_player_order pu.payer_id pu.payer_order_id with
    | Except.ok ch' => Except.ok ch'
    | Except.error _ => Except.ok ch
  else
    let payment := pu.price * pu.volume
    if pu.payer_id = "N/A" then
      let ch1 :=
        match ch.update_player pu.vol_filler_id payment (-pu.volume) with
        | some (_, c) => c
        | none => ch
      match ch1.update_player_order_vol pu.vol_filler_id pu.vol_filler_order_id (-pu.volume) with
      | Except.error _ => Except.error "Failed to update"
      | Except.ok ch2 => Except.ok ch2
    else
      let ch1 :=
        match ch.update_player pu.payer_id (-payment) pu.volume with
        | some (_, c) => c
        | none => ch
      match ch1.update_player_order_vol pu.payer_id pu.payer_order_id (-pu.volume) with
      | Except.error _ => Except.error "Failed to update"
      | Except.ok ch2 => Except.ok ch2

/-- The `for pu in player_updates` loop of `flow_batch_update`. -/
def flowProcess (ch : ClearingHouse) : List PlayerUpdate → Except String ClearingHouse
  | [] => Except.ok ch
  | pu :: rest =>
    match flowStep ch pu with
    | Except.ok ch' => flowProcess ch' rest
    | Except.error e => Except.error e

/-- `ClearingHouse::flow_batch_update` (lines 386-434): a missing
`uniform_price` or missing `cross_results` is a no-op. -/
def flow_batch_update (ch : ClearingHouse) (results : TradeResults) :
    Except String ClearingHouse :=
  match results.uniform_price with
  | none => Except.ok ch
  | some _ =>
    match results.cross_results with
    | some player_updates => flowProcess ch player_updates
    | none => Except.ok ch

/-- The player-map part of `ClearingHouse::apply_gas_fees` (lines
546-558): for each `(trader_id, fee)` pair subtract the fee from that
player's balance via `update_bal`; an absent trader is silently skipped
(`None => {}`). -/
def applyFeesList (ps : List Player) : List (String × ℚ) → List Player
  | [] => ps
  | c :: rest =>
    applyFeesList (modifyPlayer ps c.1 (fun p => { p with balance := p.balance - c.2 })) rest

/-- `ClearingHouse::apply_gas_fees` (lines 540-559): push `total` onto the
gas-fees sequence, then debit each listed fee. -/
def apply_gas_fees (ch : ClearingHouse) (to_change : List (String × ℚ)) (total : ℚ) :
    ClearingHouse :=
  { ch with gas_fees := ch.gas_fees ++ [total],
            players := applyFeesList ch.players to_change }

/-- The body of `ClearingHouse::liquidate` (lines 600-631): walk every
player; add `inventory * fund_val` to the balance and add `-inventory` to
the inventory; a maker's update amount is accumulated into the
maker-profits entry. -/
def liquidateList (fund_val : ℚ) :
    List Player → MakerProfits → List Player × MakerProfits
  | [], mp => ([], mp)
  | p :: rest, mp =>
    let update_amount := p.inventory * fund_val
    let p' : Player := { p with balance := p.balance + update_amount,
                                inventory := p.inventory + (-p.inventory) }
    let mp' :=
      if p.player_type = TraderT.Maker then
        match p.maker_type with
        | some mt => mp.add mt update_amount
        | none => mp
      else mp
    let (rest', mp'') := liquidateList fund_val rest mp'
    (p' :: rest', mp'')

/-- `ClearingHouse::liquidate` (lines 600-631). -/
def liquidate (ch : ClearingHouse) (fund_val : ℚ) : ClearingHouse :=
  let (ps', mp') := liquidateList fund_val ch.players ch.maker_profits
  { ch with players := ps', maker_profits := mp' }

end ClearingHouse

namespace Miner

/-- The gas total accumulated by the `collect_gas` loop. -/
def gasTotal (frame : List Order) : ℚ := (frame.map Order.gas).sum

/-- `Miner::collect_gas` (src/players/miner.rs lines 180-192): one
`(trader_id, gas)` pair per frame order, then the miner's own pair
`(miner_id, -total_gas)`; the returned total is the frame's gas sum. -/
def collect_gas (miner_id : String) (frame : List Order) : List (String × ℚ) × ℚ :=
  (frame.map (fun o => (o.trader_id, o.gas)) ++ [(miner_id, -(gasTotal frame))],
   gasTotal frame)

/-- `orders.sort_by(|a, b| a.price.partial_cmp(&b.price).unwrap())`:
a stable sort in ASCENDING price order (note: the surrounding comments in
miner.rs claim descending order, but `a.partial_cmp(&b)` sorts
ascending).  Modelled as stable insertion sort. -/
def insertAsc (o : Order) : List Order → List Order
  | [] => [o]
  | x :: xs => if x.price < o.price then x :: insertAsc o xs else o :: x :: xs

/-- Stable ascending-by-price sort of the frame. -/
def sortByPrice : List Order → List Order
  | [] => []
  | o :: rest => insertAsc o (sortByPrice rest)

/-- The selection loop of `strategic_front_run` (miner.rs lines 110-123):
`best_bid` is set by the FIRST `Bid` encountered (kept thereafter),
`best_ask` is overwritten by EVERY `Ask`, so it ends as the last ask. -/
def selectBest : List Order → Option Order → Option Order → Option Order × Option Order
  | [], bb, ba => (bb, ba)
  | o :: rest, bb, ba =>
    match o.trade_type with
    | TradeType.Bid => selectBest rest (if bb.isNone then some o else bb) ba
    | TradeType.Ask => selectBest rest bb (some o)

/-- Copy the chosen order under the miner's identity: miner.rs lines
166-173 (`trader_id := miner`, `gas := 0`, fresh `order_id`, insert at
frame position 0). -/
def frontRunCopy (miner_id : String) (fresh_id : ℕ) (o : Order) (frame : List Order) :
    Order × List Order :=
  let fr : Order := { o with trader_id := miner_id, gas := 0, order_id := fresh_id }
  (fr, fr :: frame)

/-- `Miner::strategic_front_run` (miner.rs lines 98-174).  The fresh
order id produced by `gen_order_id()` is passed in as `fresh_id`. -/
def strategic_front_run (miner_id : String) (fresh_id : ℕ) (frame : List Order)
    (best_bid_price best_ask_price : ℚ) : Except String (Order × List Order) :=
  if frame.length = 0 then Except.error "No orders in the frame to front-run"
  else
    match selectBest (sortByPrice frame) none none with
    | (none, none) => Except.error "No orders in the frame to front-run"
    | (some b, none) => Except.ok (frontRunCopy miner_id fresh_id b frame)
    | (none, some a) => Except.ok (frontRunCopy miner_id fresh_id a frame)
    | (some b, some a) =>
      if best_ask_price - b.price < 0 ∧ a.price - best_bid_price < 0 then
        Except.error "No orders in the frame good enough to front-run"
      else if 0 ≤ best_ask_price - b.price ∧ a.price - best_bid_price < 0 then
        Except.ok (frontRunCopy miner_id fresh_id b frame)
      else if best_ask_price - b.price < 0 ∧ 0 ≤ a.price - best_bid_price then
        Except.ok (frontRunCopy miner_id fresh_id a frame)
      else if a.price - best_bid_price ≤ best_ask_price - b.price then
        Except.ok (frontRunCopy miner_id fresh_id a frame)
      else
        Except.ok (frontRunCopy miner_id fresh_id b frame)

end Miner

namespace Simulation

/-- A sampler assignment for one loop iteration: `gen_trader_id` plus the
two `sample_dist` draws, abstracted as functions of the iteration
index. -/
structure SetupEnv where
  idGen : ℕ → String
  balSample : ℕ → ℚ
  invSample : ℕ → ℚ

/-- `Simulation::setup_investors` (src/simulation/simulation.rs lines
103-120): the loop `for _ in 1..num_investors` runs `num_investors - 1`
times, each iteration creating one investor with a generated id and
sampled balance and inventory. -/
def setup_investors (env : SetupEnv) (num_investors : ℕ) : List Player :=
  (List.range (num_investors - 1)).map (fun k =>
    { trader_id := env.idGen k, balance := env.balSample k, inventory := env.invSample k,
      orders := [], player_type := TraderT.Investor, maker_type := none })

/-- `Simulation::setup_makers` (lines 124-146): the loop
`for _ in 1..num_makers` runs `num_makers - 1` times; each maker gets a
random behavioural sub-type (abstracted by `typeGen`). -/
def setup_makers (env : SetupEnv) (typeGen : ℕ → MakerT) (num_makers : ℕ) : List Player :=
  (List.range (num_makers - 1)).map (fun k =>
    { trader_id := env.idGen k, balance := env.balSample k, inventory := env.invSample k,
      orders := [], player_type := TraderT.Maker, maker_type := some (typeGen k) })

/-- The fresh miner registered by `init_simulation` (lines 82-84). -/
def freshMiner (id : String) : Player :=
  { trader_id := id, balance := 0, inventory := 0, orders := [],
    player_type := TraderT.Miner, maker_type := none }

/-- The ClearingHouse built by `Simulation::init_simulation` (lines
73-99): a new house, then `reg_miner`, then `reg_n_investors`, then
`reg_n_makers`. -/
def init_simulation (minerId : String) (invEnv mkrEnv : SetupEnv) (typeGen : ℕ → MakerT)
    (num_investors num_makers : ℕ) : ClearingHouse :=
  let ch := ClearingHouse.new.reg_player (freshMiner minerId)
  let ch := ch.reg_n_players (setup_investors invEnv num_investors)
  ch.reg_n_players (setup_makers mkrEnv typeGen num_makers)

end Simulation

/-- Concrete sampler environments for witnesses. -/
def envI : Simulation.SetupEnv :=
  { idGen := fun k => if k = 0 then "I0" else "I1",
    balSample := fun _ => 10, invSample := fun _ => 0 }

def envK : Simulation.SetupEnv :=
  { idGen := fun k => if k = 0 then "K0" else "K1",
    balSample := fun _ => 20, invSample := fun _ => 0 }

def tgW : ℕ → MakerT := fun _ => MakerT.Random

/-- Convenience constructor for concrete player records. -/
def mkTrader (id : String) (bal inv : ℚ) (os : List Order) (t : TraderT)
    (mt : Option MakerT) : Player :=
  { trader_id := id, balance := bal, inventory := inv, orders := os,
    player_type := t, maker_type := mt }

/-- A house holding exactly the given players and zeroed counters. -/
def houseWith (ps : List Player) : ClearingHouse :=
  { players := ps, gas_fees := [], total_tax := 0,
    maker_profits := { aggressive := 0, riskAverse := 0, random := 0 } }

/-- Sum of all player balances. -/
def balSum (ps : List Player) : ℚ := (ps.map Player.balance).sum

/-- C2/C3 counterexample inputs: a miner registered with no orders. -/
def chM7 : ClearingHouse := houseWith [mkTrader "M" 7 1 [] TraderT.Miner none]

/-- A zero-volume non-cancel KLF ask-side update whose order id is absent
from the (registered) trader's order list. -/
def puZeroVol : PlayerUpdate :=
  { payer_id := "N/A", payer_order_id := 0, vol_filler_id := "M",
    vol_filler_order_id := 1, price := 10, volume := 0, cancel := false }

def resZeroVol : TradeResults :=
  { auction_type := MarketType.KLF, uniform_price := some 10,
    cross_results := some [puZeroVol] }

/-- C3 counterexample input: a non-cancel volume-2 update whose payer is
the registered miner "M" but whose order id 1 is not in M's order list. -/
def puVolMiss : PlayerUpdate :=
  { payer_id := "M", payer_order_id := 1, vol_filler_id := "B",
    vol_filler_order_id := 2, price := 3, volume := 2, cancel := false }

def resCdaMiss : TradeResults :=
  { auction_type := MarketType.CDA, uniform_price := none,
    cross_results := some [puVolMiss] }

/-- C3 witness input: a cancel-propagation update for an absent order. -/
def puCancelMiss : PlayerUpdate :=
  { payer_id := "M", payer_order_id := 5, vol_filler_id := "B",
    vol_filler_order_id := 2, price := 3, volume := 2, cancel := true }

/-- C4 failing input: a limit bid with quantity 3 held by the miner. -/
def ordQty3 : Order :=
  { trader_id := "M", order_id := 1, order_type := OrderType.Enter,
    trade_type := TradeType.Bid, ex_type := ExchangeType.LimitOrder,
    p_low := 0, p_high := 0, price := 10, quantity := 3, gas := 0 }

def chMinerOrd : ClearingHouse := houseWith [mkTrader "M" 0 0 [ordQty3] TraderT.Miner none]

/-- C4 contrast input: the same order held by an (spec-modelled) investor. -/
def ordQty3I : Order := { ordQty3 with trader_id := "I" }

def chInvOrd : ClearingHouse := houseWith [mkTrader "I" 0 0 [ordQty3I] TraderT.Investor none]

/-- Total fee charged to `id` by a `(trader_id, fee)` list. -/
def sumFor : List (String × ℚ) → String → ℚ
  | [], _ => 0
  | c :: rest, id => (if c.1 = id then c.2 else 0) + sumFor rest id

/-- The gas a given submitter owes for a frame: the sum of the gas of its
orders in the frame. -/
def submitterGas (frame : List Order) (id : String) : ℚ :=
  ((frame.filter (fun o => o.trader_id = id)).map Order.gas).sum

/-- C1 concrete inputs: investor "A" with balance 10; a one-order frame
with gas 5 submitted by "A"; miner id "M". -/
def ordGas5 : Order :=
  { trader_id := "A", order_id := 3, order_type := OrderType.Enter,
    trade_type := TradeType.Bid, ex_type := ExchangeType.LimitOrder,
    p_low := 0, p_high := 0, price := 9, quantity := 1, gas := 5 }

def frameG : List Order := [ordGas5]

def chA10 : ClearingHouse := houseWith [mkTrader "A" 10 0 [] TraderT.Investor none]

def chAM : ClearingHouse :=
  houseWith [mkTrader "A" 10 0 [] TraderT.Investor none,
             mkTrader "M" 0 0 [] TraderT.Miner none]

/-- The first `Bid` of a list (what the `best_bid` accumulator of the
`strategic_front_run` scan ends up holding). -/
def firstBid : List Order → Option Order
  | [] => none
  | o :: rest =>
    match o.trade_type with
    | TradeType.Bid => some o
    | TradeType.Ask => firstBid rest

/-- The last `Ask` of a list (what the `best_ask` accumulator of the
`strategic_front_run` scan ends up holding). -/
def lastAsk : List Order → Option Order
  | [] => none
  | o :: rest =>
    match o.trade_type with
    | TradeType.Bid => lastAsk rest
    | TradeType.Ask =>
      match lastAsk rest with
      | some a => some a
      | none => some o

/-- C5 counterexample inputs: a frame holding two bids, priced 5 and 10. -/
def bidP5 : Order :=
  { trader_id := "V", order_id := 1, order_type := OrderType.Enter,
    trade_type := TradeType.Bid, ex_type := ExchangeType.LimitOrder,
    p_low := 0, p_high := 0, price := 5, quantity := 1, gas := 1 }

def bidP10 : Order := { bidP5 with order_id := 2, price := 10 }

def frameC5 : List Order := [bidP5, bidP10]

/-- The six mutexes touched by ClearingHouse operations.  The spec's five
coarse-grained locks are the players map, the Books, the MemPool, the
gas-fees sequence and the maker-profits array; `total_tax` is a sixth
mutex outside that list. -/
inductive LockId
  | playersL | bookL | mempoolL | gasFeesL | makerProfitsL | totalTaxL
deriving DecidableEq, Repr

/-- Whether a lock is one of the spec's five coarse-grained locks. -/
def coarseFive : LockId → Bool
  | LockId.totalTaxL => false
  | _ => true

inductive LockEvent
  | acq (l : LockId)
  | rel (l : LockId)
deriving DecidableEq, Repr

/-- Walk a lock-event trace, tracking how many of the five coarse locks
are currently held and the maximum ever held simultaneously. -/
def maxHeldAux : ℕ → ℕ → List LockEvent → ℕ
  | _, m, [] => m
  | c, m, LockEvent.acq l :: rest =>
    if coarseFive l then maxHeldAux (c + 1) (max m (c + 1)) rest else maxHeldAux c m rest
  | c, m, LockEvent.rel l :: rest =>
    if coarseFive l then maxHeldAux (c - 1) m rest else maxHeldAux c m rest

/-- Maximum number of the five coarse locks held simultaneously. -/
def maxHeld (evs : List LockEvent) : ℕ := maxHeldAux 0 0 evs

/-- Lock trace of every ClearingHouse operation whose body is a single
`self.players.lock()` scope: all `reg_*`, `get_player`,
`cancel_all_orders`, `get_player_order_count`, `get_type`,
`get_rand_player_id`, `get_filtered_ids`, `update_player_bal`,
`update_player_inv`, `get_maker_counts`, `get_bal_inv`, `new_order`,
`new_orders`, `update_player_order_vol`, `cancel_player_order`,
`del_player`, `report_player`, `num_players`, `orders_in_house`,
`log_all_players`. -/
def playersOnlyTrace : List LockEvent :=
  [LockEvent.acq LockId.playersL, LockEvent.rel LockId.playersL]

/-- Lock trace of `update_player` (clearing_house.rs 210-241): the
maker-profits mutex is locked INSIDE the players-lock scope when the
player is a Maker. -/
def update_playerTrace (isMaker : Bool) : List LockEvent :=
  [LockEvent.acq LockId.playersL]
    ++ (if isMaker then [LockEvent.acq LockId.makerProfitsL,
                         LockEvent.rel LockId.makerProfitsL] else [])
    ++ [LockEvent.rel LockId.playersL]

/-- Lock trace of `apply_gas_fees` (540-559): the gas-fees lock is taken
in its own scope and dropped before the players lock is taken. -/
def apply_gas_feesTrace : List LockEvent :=
  [LockEvent.acq LockId.gasFeesL, LockEvent.rel LockId.gasFeesL,
   LockEvent.acq LockId.playersL, LockEvent.rel LockId.playersL]

/-- Lock trace of `update_player_order` (466-476): cancel then insert,
two sequential players-lock scopes. -/
def update_player_orderTrace : List LockEvent := playersOnlyTrace ++ playersOnlyTrace

/-- Lock trace of `add_tax` (561-564). -/
def add_taxTrace : List LockEvent :=
  [LockEvent.acq LockId.totalTaxL, LockEvent.rel LockId.totalTaxL]

/-- Lock trace of `tax_makers` (568-584): `get_filtered_ids` (own players
scope), then the players lock held across the loop; each of the `n` maker
iterations calls `add_tax`, locking the total-tax mutex under the players
lock. -/
def tax_makersTrace (n : ℕ) : List LockEvent :=
  playersOnlyTrace ++ [LockEvent.acq LockId.playersL]
    ++ (List.replicate n add_taxTrace).flatten ++ [LockEvent.rel LockId.playersL]

/-- Lock trace of `liquidate` (600-631): the players lock held across the
loop; each player that is a Maker (flag `true`) locks the maker-profits
mutex inside it. -/
def liquidateTrace (makerFlags : List Bool) : List LockEvent :=
  [LockEvent.acq LockId.playersL]
    ++ (makerFlags.map (fun b =>
          if b then [LockEvent.acq LockId.makerProfitsL,
                     LockEvent.rel LockId.makerProfitsL]
          else ([] : List LockEvent))).flatten
    ++ [LockEvent.rel LockId.playersL]

/-- C5 witness inputs for the both-candidates branch: a frame holding a
bid priced 8 and an ask priced 13. -/
def bidW : Order :=
  { trader_id := "V", order_id := 11, order_type := OrderType.Enter,
    trade_type := TradeType.Bid, ex_type := ExchangeType.LimitOrder,
    p_low := 0, p_high := 0, price := 8, quantity := 1, gas := 1 }

def askW : Order := { bidW with order_id := 12, trade_type := TradeType.Ask, price := 13 }

def frameW : List Order := [bidW, askW]

/-- The order the C5 witness run inserts: the ask candidate copied under
the miner's identity. -/
def frWA : Order := { askW with trader_id := "MINER", gas := 0, order_id := 77 }

/-! ### General lemmas about the player map -/

theorem findPlayer_nil (id : String) : findPlayer [] id = none := rfl

theorem findPlayer_cons (p : Player) (ps : List Player) (id : String) :
    findPlayer (p :: ps) id = if p.trader_id = id then some p else findPlayer ps id := by
  by_cases h : p.trader_id = id <;> simp [findPlayer, List.find?_cons, h]

theorem keys_modifyPlayer (ps : List Player) (id : String) (f : Player → Player)
    (hf : ∀ p, (f p).trader_id = p.trader_id) :
    playerKeys (modifyPlayer ps id f) = playerKeys ps := by
  induction ps with
  | nil => rfl
  | cons p rest ih =>
    by_cases h : p.trader_id = id
    · simp [modifyPlayer, h, playerKeys, hf]
    · simp only [modifyPlayer, h, if_false, playerKeys, List.map_cons]
      exact congrArg _ ih

theorem modifyPlayer_eq_map (ps : List Player) (id : String) (f : Player → Player)
    (hnd : (playerKeys ps).Nodup) :
    modifyPlayer ps id f = ps.map (fun p => if p.trader_id = id then f p else p) := by
  induction ps with
  | nil => rfl
  | cons p rest ih =>
    simp only [playerKeys, List.map_cons, List.nodup_cons] at hnd
    by_cases h : p.trader_id = id
    · have hrest : ∀ q ∈ rest, (if q.trader_id = id then f q else q) = q := by
        intro q hq
        have hne : ¬(q.trader_id = id) := by
          intro hqid
          exact hnd.1 (by simpa [hqid, ← h] using List.mem_map_of_mem Player.trader_id hq)
        simp [hne]
      have hmap : List.map (fun q => if q.trader_id = id then f q else q) rest = rest := by
        rw [List.map_congr_left hrest]
        simp
      simp [modifyPlayer, h, hmap]
    · simp only [modifyPlayer, h, if_false, List.map_cons]
      exact congrArg _ (ih hnd.2)

theorem findPlayer_modifyPlayer_self (ps : List Player) (id : String) (f : Player → Player)
    (hf : ∀ p, (f p).trader_id = p.trader_id) :
    findPlayer (modifyPlayer ps id f) id = (findPlayer ps id).map f := by
  induction ps with
  | nil => rfl
  | cons p rest ih =>
    by_cases h : p.trader_id = id
    · simp [modifyPlayer, h, findPlayer_cons, hf]
    · simp [modifyPlayer, h, findPlayer_cons, ih]

theorem findPlayer_modifyPlayer_ne (ps : List Player) (id id' : String) (f : Player → Player)
    (hf : ∀ p, (f p).trader_id = p.trader_id) (hne : id ≠ id') :
    findPlayer (modifyPlayer ps id' f) id = findPlayer ps id := by
  induction ps with
  | nil => rfl
  | cons p rest ih =>
    by_cases h : p.trader_id = id'
    · have h1 : (f p).trader_id ≠ id := by
        rw [hf p, h]
        exact fun hc => hne hc.symm
      have h2 : p.trader_id ≠ id := by
        rw [h]
        exact fun hc => hne hc.symm
      simp [modifyPlayer, h, findPlayer_cons, h1, h2, Ne.symm hne]
    · simp [modifyPlayer, h, findPlayer_cons, ih]

theorem sum_if_single (ps : List Player) (id : String) (x : ℚ)
    (hnd : (playerKeys ps).Nodup) (hmem : ∃ p ∈ ps, p.trader_id = id) :
    (ps.map (fun p => if p.trader_id = id then x else 0)).sum = x := by
  induction ps with
  | nil => simp at hmem
  | cons p rest ih =>
    simp only [playerKeys, List.map_cons, List.nodup_cons] at hnd
    by_cases h : p.trader_id = id
    · have hrest : ∀ q ∈ rest, (if q.trader_id = id then x else 0) = (0 : ℚ) := by
        intro q hq
        have hne : ¬(q.trader_id = id) := by
          intro hqid
          exact hnd.1 (by simpa [hqid, ← h] using List.mem_map_of_mem Player.trader_id hq)
        simp [hne]
      have hmap : (List.map (fun q => if q.trader_id = id then x else 0) rest).sum = 0 := by
        rw [List.map_congr_left hrest]
        simp
      simp [h, hmap]
    · rcases hmem with ⟨q, hq, hqid⟩
      rcases List.mem_cons.mp hq with hq' | hq'
      · exact absurd (hq' ▸ hqid) h
      · simp only [List.map_cons, List.sum_cons, h, if_false, zero_add]
        exact ih hnd.2 ⟨q, hq', hqid⟩


/-! ### C6 — liquidation marks every player to market -/

theorem liquidateList_fst (fund_val : ℚ) (ps : List Player) (mp : MakerProfits) :
    (ClearingHouse.liquidateList fund_val ps mp).1
      = ps.map (fun p =>
          { p with balance := p.balance + p.inventory * fund_val, inventory := 0 }) := by
  induction ps generalizing mp with
  | nil => rfl
  | cons p rest ih => simp [ClearingHouse.liquidateList, ih]

/-- C6: `liquidate(fund_val)` adds `inventory * fund_val` to every
player's balance and zeroes every player's inventory (and changes no
balance by any other amount); in particular a maker with balance 500 and
inventory -2 ends at balance 300, inventory 0 under `liquidate(100)`. -/
theorem liquidate_marks_to_market :
    (∀ (ch : ClearingHouse) (fund_val : ℚ),
      (ch.liquidate fund_val).players
        = ch.players.map (fun p =>
            { p with balance := p.balance + p.inventory * fund_val, inventory := 0 }))
    ∧ ((houseWith [mkTrader "MK" 500 (-2) [] TraderT.Maker (some MakerT.Aggressive)]).liquidate
        100).players
      = [mkTrader "MK" 300 0 [] TraderT.Maker (some MakerT.Aggressive)] := by
  constructor
  · intro ch fund_val
    simp [ClearingHouse.liquidate, liquidateList_fst]
  · simp [ClearingHouse.liquidate, liquidateList_fst, houseWith, mkTrader]
    norm_num

/-! ### C7 — registration is an idempotent insert -/

theorem findPlayer_append (ps qs : List Player) (id : String) :
    findPlayer (ps ++ qs) id = (findPlayer ps id).or (findPlayer qs id) := by
  simp [findPlayer, List.find?_append]

/-- C7: registering a player whose trader_id is already present leaves the
house unchanged, so registering the same id twice (with any record
carrying that id) is the same as registering it once. -/
theorem reg_idempotent :
    (∀ (ch : ClearingHouse) (p : Player),
        (findPlayer ch.players p.trader_id).isSome = true → ch.reg_player p = ch)
    ∧ (∀ (ch : ClearingHouse) (p q : Player), q.trader_id = p.trader_id →
        (ch.reg_player p).reg_player q = ch.reg_player p) := by
  constructor
  · intro ch p h
    unfold ClearingHouse.reg_player
    cases hfind : findPlayer ch.players p.trader_id with
    | some x => rfl
    | none => rw [hfind] at h; simp at h
  · intro ch p q hq
    cases hfind : findPlayer ch.players p.trader_id with
    | some x =>
      have h1 : ch.reg_player p = ch := by simp [ClearingHouse.reg_player, hfind]
      rw [h1]
      simp [ClearingHouse.reg_player, hq, hfind]
    | none =>
      have h1 : ch.reg_player p = { ch with players := ch.players ++ [p] } := by
        simp [ClearingHouse.reg_player, hfind]
      rw [h1]
      have h2 : findPlayer (ch.players ++ [p]) q.trader_id = some p := by
        rw [findPlayer_append, hq, hfind]
        simp [findPlayer_cons]
      simp [ClearingHouse.reg_player, h2]

/-- Witness for C7 at a concrete one-player house. -/
theorem reg_idempotent_witness :
    ((findPlayer (houseWith [mkTrader "A" 1 0 [] TraderT.Investor none]).players
        (mkTrader "A" 5 7 [] TraderT.Investor none).trader_id).isSome = true)
    ∧ (houseWith [mkTrader "A" 1 0 [] TraderT.Investor none]).reg_player
        (mkTrader "A" 5 7 [] TraderT.Investor none)
      = houseWith [mkTrader "A" 1 0 [] TraderT.Investor none] :=
  ⟨by decide, reg_idempotent.1 _ _ (by decide)⟩

/-! ### C9 — get_player pops the record out of the map -/

theorem findPlayer_eq_none_iff (ps : List Player) (id : String) :
    findPlayer ps id = none ↔ id ∉ playerKeys ps := by
  simp only [findPlayer, List.find?_eq_none, playerKeys, List.mem_map]
  constructor
  · rintro h ⟨p, hp, hid⟩
    exact h p hp (by simp [hid])
  · intro h p hp
    simp only [decide_eq_true_eq]
    intro hid
    exact h ⟨p, hp, hid⟩

theorem length_removePlayer (ps : List Player) (id : String) (p : Player)
    (h : findPlayer ps id = some p) :
    (removePlayer ps id).length + 1 = ps.length := by
  induction ps with
  | nil => simp [findPlayer] at h
  | cons q rest ih =>
    rw [findPlayer_cons] at h
    by_cases hq : q.trader_id = id
    · simp [removePlayer, hq]
    · rw [if_neg hq] at h
      simp only [removePlayer, hq, if_false, List.length_cons]
      rw [ih h]

theorem findPlayer_removePlayer (ps : List Player) (id : String)
    (hnd : (playerKeys ps).Nodup) :
    findPlayer (removePlayer ps id) id = none := by
  induction ps with
  | nil => rfl
  | cons q rest ih =>
    simp only [playerKeys, List.map_cons, List.nodup_cons] at hnd
    by_cases hq : q.trader_id = id
    · simp only [removePlayer, hq, if_true]
      rw [findPlayer_eq_none_iff]
      rw [hq] at hnd
      exact hnd.1
    · simp only [removePlayer, hq, if_false]
      rw [findPlayer_cons, if_neg hq]
      exact ih hnd.2

/-- C9: despite its name, `get_player(id)` removes the player from the
map: on a hit the record is returned and deleted (player count drops by
one, a second lookup or `get_player` of the same id yields `none`); on a
miss the house is unchanged. -/
theorem get_player_pops :
    ∀ (ch : ClearingHouse) (id : String), (playerKeys ch.players).Nodup →
      (∀ p, findPlayer ch.players id = some p →
        ch.get_player id = (some p, { ch with players := removePlayer ch.players id })
        ∧ (ch.get_player id).2.num_players + 1 = ch.num_players
        ∧ findPlayer (ch.get_player id).2.players id = none
        ∧ ((ch.get_player id).2.get_player id).1 = none)
      ∧ (findPlayer ch.players id = none → ch.get_player id = (none, ch)) := by
  intro ch id hnd
  constructor
  · intro p hp
    have heq : ch.get_player id = (some p, { ch with players := removePlayer ch.players id }) := by
      simp [ClearingHouse.get_player, hp]
    have hnone : findPlayer (removePlayer ch.players id) id = none :=
      findPlayer_removePlayer ch.players id hnd
    refine ⟨heq, ?_, ?_, ?_⟩
    · rw [heq]
      exact length_removePlayer ch.players id p hp
    · rw [heq]
      exact hnone
    · rw [heq]
      simp [ClearingHouse.get_player, hnone]
  · intro hp
    simp [ClearingHouse.get_player, hp]

/-- Witness for C9: a concrete two-player house. -/
theorem get_player_pops_witness :
    ((playerKeys (houseWith [mkTrader "A" 1 0 [] TraderT.Investor none,
        mkTrader "B" 2 0 [] TraderT.Investor none]).players).Nodup
    ∧ findPlayer (houseWith [mkTrader "A" 1 0 [] TraderT.Investor none,
        mkTrader "B" 2 0 [] TraderT.Investor none]).players "A"
      = some (mkTrader "A" 1 0 [] TraderT.Investor none))
    ∧ ((houseWith [mkTrader "A" 1 0 [] TraderT.Investor none,
          mkTrader "B" 2 0 [] TraderT.Investor none]).get_player "A").2.num_players + 1
      = (houseWith [mkTrader "A" 1 0 [] TraderT.Investor none,
          mkTrader "B" 2 0 [] TraderT.Investor none]).num_players :=
  ⟨⟨by decide, by decide⟩,
   ((get_player_pops _ "A" (by decide)).1
      (mkTrader "A" 1 0 [] TraderT.Investor none) (by decide)).2.1⟩

/-! ### C10 — population off-by-one at initialization -/

theorem keys_reg_n_fresh (l : List Player) (ch : ClearingHouse)
    (hfresh : ∀ p ∈ l, findPlayer ch.players p.trader_id = none)
    (hnd : (playerKeys l).Nodup) :
    playerKeys (ch.reg_n_players l).players = playerKeys ch.players ++ playerKeys l := by
  induction l generalizing ch with
  | nil => simp [ClearingHouse.reg_n_players, playerKeys]
  | cons p rest ih =>
    simp only [playerKeys, List.map_cons, List.nodup_cons] at hnd
    have hstep : ch.reg_player p = { ch with players := ch.players ++ [p] } := by
      simp [ClearingHouse.reg_player, hfresh p (by simp)]
    have hfresh' : ∀ q ∈ rest, findPlayer (ch.players ++ [p]) q.trader_id = none := by
      intro q hq
      rw [findPlayer_append, hfresh q (by simp [hq])]
      have : p.trader_id ≠ q.trader_id := by
        intro hc
        exact hnd.1 (hc ▸ List.mem_map_of_mem Player.trader_id hq)
      simp [findPlayer_cons, this, findPlayer_nil]
    have := ih { ch with players := ch.players ++ [p] } hfresh' hnd.2
    simp only [ClearingHouse.reg_n_players, List.foldl_cons] at *
    rw [hstep, this]
    simp [playerKeys]

theorem num_players_eq_keys_length (ch : ClearingHouse) :
    ch.num_players = (playerKeys ch.players).length := by
  simp [ClearingHouse.num_players, playerKeys]

/-- C10: `setup_investors` returns `num_investors - 1` players and
`setup_makers` returns `num_makers - 1` (the loops run over `1..n`), so
`init_simulation` with fresh distinct trader ids registers
`(n_i - 1) + (n_m - 1) + 1` players. -/
theorem setup_off_by_one :
    ∀ (invEnv mkrEnv : Simulation.SetupEnv) (tg : ℕ → MakerT) (minerId : String)
      (n_i n_m : ℕ), 1 ≤ n_i → 1 ≤ n_m →
      (Simulation.setup_investors invEnv n_i).length = n_i - 1
      ∧ (Simulation.setup_makers mkrEnv tg n_m).length = n_m - 1
      ∧ ((playerKeys (Simulation.freshMiner minerId ::
            (Simulation.setup_investors invEnv n_i
              ++ Simulation.setup_makers mkrEnv tg n_m))).Nodup →
          (Simulation.init_simulation minerId invEnv mkrEnv tg n_i n_m).num_players
            = (n_i - 1) + (n_m - 1) + 1) := by
  intro invEnv mkrEnv tg minerId n_i n_m hni hnm
  refine ⟨by simp [Simulation.setup_investors], by simp [Simulation.setup_makers], ?_⟩
  intro hnd
  set invs := Simulation.setup_investors invEnv n_i with hinvs
  set mkrs := Simulation.setup_makers mkrEnv tg n_m with hmkrs
  have hnd' : (minerId :: (playerKeys invs ++ playerKeys mkrs)).Nodup := by
    simpa [playerKeys, Simulation.freshMiner] using hnd
  obtain ⟨hm, hnd2⟩ := List.nodup_cons.mp hnd'
  obtain ⟨hndi, hndm, hdisj⟩ := List.nodup_append.mp hnd2
  set ch0 := ClearingHouse.new.reg_player (Simulation.freshMiner minerId) with hch0def
  have hch0 : ch0.players = [Simulation.freshMiner minerId] := by
    simp [hch0def, ClearingHouse.reg_player, ClearingHouse.new, findPlayer]
  have hkeys0 : playerKeys ch0.players = [minerId] := by
    rw [hch0]
    rfl
  have hfresh_inv : ∀ p ∈ invs, findPlayer ch0.players p.trader_id = none := by
    intro p hp
    rw [findPlayer_eq_none_iff, hkeys0]
    simp only [List.mem_singleton]
    intro hc
    exact hm (List.mem_append_left _ (hc ▸ List.mem_map_of_mem Player.trader_id hp))
  set ch1 := ch0.reg_n_players invs with hch1def
  have hkeys1 : playerKeys ch1.players = [minerId] ++ playerKeys invs := by
    rw [hch1def, keys_reg_n_fresh invs ch0 hfresh_inv hndi, hkeys0]
  have hfresh_mkr : ∀ p ∈ mkrs, findPlayer ch1.players p.trader_id = none := by
    intro p hp
    rw [findPlayer_eq_none_iff, hkeys1]
    intro hc
    rcases List.mem_append.mp hc with hc1 | hc1
    · exact hm (List.mem_append_right _
        ((List.mem_singleton.mp hc1) ▸ List.mem_map_of_mem Player.trader_id hp))
    · exact hdisj hc1 (List.mem_map_of_mem Player.trader_id hp)
  have hkeys2 : playerKeys (ch1.reg_n_players mkrs).players
      = ([minerId] ++ playerKeys invs) ++ playerKeys mkrs := by
    rw [keys_reg_n_fresh mkrs ch1 hfresh_mkr hndm, hkeys1]
  have hfinal : (Simulation.init_simulation minerId invEnv mkrEnv tg n_i n_m).num_players
      = 1 + (playerKeys invs).length + (playerKeys mkrs).length := by
    rw [num_players_eq_keys_length]
    have : Simulation.init_simulation minerId invEnv mkrEnv tg n_i n_m
        = ch1.reg_n_players mkrs := by
      simp [Simulation.init_simulation, hch1def, hch0def, hinvs, hmkrs]
    rw [this, hkeys2]
    simp only [List.length_append, List.length_cons, List.length_nil]
  have hleni : (playerKeys invs).length = n_i - 1 := by
    simp [playerKeys, hinvs, Simulation.setup_investors]
  have hlenm : (playerKeys mkrs).length = n_m - 1 := by
    simp [playerKeys, hmkrs, Simulation.setup_makers]
  rw [hfinal, hleni, hlenm]
  omega

/-- Witness for C10 at `num_investors = 2`, `num_makers = 3`. -/
theorem setup_off_by_one_witness :
    ((1:ℕ) ≤ 2 ∧ (1:ℕ) ≤ 3
      ∧ (playerKeys (Simulation.freshMiner "M" ::
          (Simulation.setup_investors envI 2 ++ Simulation.setup_makers envK tgW 3))).Nodup)
    ∧ (Simulation.init_simulation "M" envI envK tgW 2 3).num_players
        = (2 - 1) + (3 - 1) + 1 :=
  ⟨⟨by decide, by decide, by decide⟩,
   (setup_off_by_one envI envK tgW "M" 2 3 (by decide) (by decide)).2.2 (by decide)⟩

/-! ### C2 — the zero-volume skip -/

/-- C2 (amended): `cda_cross_update` and `fba_batch_update` skip every
non-cancel `PlayerUpdate` with zero volume (the house is untouched and the
loop continues); `flow_batch_update` has no such skip. -/
theorem zero_volume_skip :
    ∀ (ch : ClearingHouse) (pu : PlayerUpdate) (rest : List PlayerUpdate),
      pu.cancel = false → pu.volume = 0 →
      ClearingHouse.cdaProcess ch (pu :: rest) = ClearingHouse.cdaProcess ch rest
      ∧ ClearingHouse.fbaProcess ch (pu :: rest) = ClearingHouse.fbaProcess ch rest := by
  intro ch pu rest hc hv
  constructor
  · simp [ClearingHouse.cdaProcess, ClearingHouse.cdaStep, hc, hv]
  · simp [ClearingHouse.fbaProcess, ClearingHouse.fbaStep, hc, hv]

/-- Witness for C2's skip property at a concrete input. -/
theorem zero_volume_skip_witness :
    (puZeroVol.cancel = false ∧ puZeroVol.volume = 0)
    ∧ ClearingHouse.cdaProcess chM7 [puZeroVol] = ClearingHouse.cdaProcess chM7 []
    ∧ ClearingHouse.fbaProcess chM7 [puZeroVol] = ClearingHouse.fbaProcess chM7 [] :=
  ⟨⟨rfl, rfl⟩,
   (zero_volume_skip chM7 puZeroVol [] rfl rfl).1,
   (zero_volume_skip chM7 puZeroVol [] rfl rfl).2⟩

/-- C2 counterexample: `flow_batch_update` does NOT skip a zero-volume
non-cancel update — here it reaches the order-volume `.expect` and panics
(the claim would require the update to be a no-op). -/
theorem flow_zero_volume_not_skipped :
    puZeroVol.cancel = false ∧ puZeroVol.volume = 0
    ∧ ClearingHouse.flow_batch_update chM7 resZeroVol = Except.error "Failed to update" := by
  refine ⟨rfl, rfl, ?_⟩
  simp [ClearingHouse.flow_batch_update, resZeroVol, ClearingHouse.flowProcess,
    ClearingHouse.flowStep, puZeroVol, ClearingHouse.update_player, chM7, houseWith,
    mkTrader, findPlayer_cons, findPlayer_nil, ClearingHouse.update_player_order_vol,
    findPlayer_modifyPlayer_self, Player.update_order_vol, minerUpdVol, modifyPlayer,
    balInvUpd, mpUpd]

/-! ### C3 — missing order on the settlement path -/

theorem minerUpdVol_none (os : List Order) (oid : ℕ) (dv : ℚ)
    (h : ∀ o ∈ os, o.order_id ≠ oid) : minerUpdVol os oid dv = none := by
  induction os with
  | nil => rfl
  | cons o rest ih =>
    simp only [minerUpdVol, h o (by simp), if_false]
    rw [ih (fun q hq => h q (by simp [hq]))]
    rfl

theorem traderUpdVol_none (os : List Order) (oid : ℕ) (dv : ℚ)
    (h : ∀ o ∈ os, o.order_id ≠ oid) : traderUpdVol os oid dv = none := by
  induction os with
  | nil => rfl
  | cons o rest ih =>
    simp only [traderUpdVol, h o (by simp), if_false]
    rw [ih (fun q hq => h q (by simp [hq]))]
    rfl

theorem update_order_vol_err (p : Player) (oid : ℕ) (dv : ℚ)
    (hmiss : ∀ o ∈ p.orders, o.order_id ≠ oid) :
    p.update_order_vol oid dv = Except.error "ERROR: order not found to cancel" := by
  have h1 := minerUpdVol_none p.orders oid dv hmiss
  have h2 := traderUpdVol_none p.orders oid dv hmiss
  unfold Player.update_order_vol
  cases p.player_type <;> simp [h1, h2]

theorem update_player_some (ch : ClearingHouse) (id : String) (b i : ℚ) (p : Player)
    (hfind : findPlayer ch.players id = some p) :
    ch.update_player id b i
      = some (((balInvUpd b i p).balance, (balInvUpd b i p).inventory),
          { ch with players := modifyPlayer ch.players id (balInvUpd b i),
                    maker_profits := mpUpd ch.maker_profits p b }) := by
  simp [ClearingHouse.update_player, hfind]

/-- C3 (amended): on the CANCEL-propagation path a missed order is logged,
skipped and processing continues (all three routines); but on the
volume-update path of settlement, a player that exists with the order id
missing makes the `.expect` panic, aborting the routine (cda and fba). -/
theorem order_miss_handling :
    (∀ (ch : ClearingHouse) (pu : PlayerUpdate) (rest : List PlayerUpdate) (e : String),
        pu.cancel = true →
        ch.cancel_player_order pu.payer_id pu.payer_order_id = Except.error e →
        ClearingHouse.cdaProcess ch (pu :: rest) = ClearingHouse.cdaProcess ch rest
        ∧ ClearingHouse.fbaProcess ch (pu :: rest) = ClearingHouse.fbaProcess ch rest
        ∧ ClearingHouse.flowProcess ch (pu :: rest) = ClearingHouse.flowProcess ch rest)
    ∧ (∀ (ch : ClearingHouse) (pu : PlayerUpdate) (rest : List PlayerUpdate) (p : Player),
        pu.cancel = false → ¬pu.volume = 0 →
        findPlayer ch.players pu.payer_id = some p →
        (∀ o ∈ p.orders, o.order_id ≠ pu.payer_order_id) →
        ClearingHouse.cdaProcess ch (pu :: rest) = Except.error "Failed to update"
        ∧ ClearingHouse.fbaProcess ch (pu :: rest) = Except.error "Failed to update") := by
  constructor
  · intro ch pu rest e hc herr
    refine ⟨?_, ?_, ?_⟩
    · simp [ClearingHouse.cdaProcess, ClearingHouse.cdaStep, hc, herr]
    · simp [ClearingHouse.fbaProcess, ClearingHouse.fbaStep, hc, herr]
    · simp [ClearingHouse.flowProcess, ClearingHouse.flowStep, hc, herr]
  · intro ch pu rest p hc hv hfind hmiss
    have hup := update_player_some ch pu.payer_id (-(pu.price * pu.volume)) pu.volume p hfind
    have hfind1 : findPlayer
        (modifyPlayer ch.players pu.payer_id (balInvUpd (-(pu.price * pu.volume)) pu.volume))
        pu.payer_id = some (balInvUpd (-(pu.price * pu.volume)) pu.volume p) := by
      rw [findPlayer_modifyPlayer_self ch.players pu.payer_id
        (balInvUpd (-(pu.price * pu.volume)) pu.volume) (fun q => rfl), hfind]
      rfl
    have hmiss1 : ∀ o ∈ (balInvUpd (-(pu.price * pu.volume)) pu.volume p).orders,
        o.order_id ≠ pu.payer_order_id := by simpa [balInvUpd] using hmiss
    have herr1 : ClearingHouse.update_player_order_vol
        { ch with players := modifyPlayer ch.players pu.payer_id
                    (balInvUpd (-(pu.price * pu.volume)) pu.volume),
                  maker_profits := mpUpd ch.maker_profits p (-(pu.price * pu.volume)) }
        pu.payer_id pu.payer_order_id (-pu.volume)
        = Except.error "ERROR: order not found to cancel" := by
      simp [ClearingHouse.update_player_order_vol, hfind1,
        update_order_vol_err _ _ _ hmiss1]
    constructor
    · simp [ClearingHouse.cdaProcess, ClearingHouse.cdaStep, hc, hv, hup, herr1]
    · simp [ClearingHouse.fbaProcess, ClearingHouse.fbaStep, hc, hv, hup, herr1]

/-- Witness for C3's amended theorem: a cancel miss at a concrete house is
skipped and a volume-path miss at the same house aborts. -/
theorem order_miss_handling_witness :
    (puCancelMiss.cancel = true
      ∧ chM7.cancel_player_order "M" 5 = Except.error "ERROR: order not found to cancel"
      ∧ ClearingHouse.cdaProcess chM7 [puCancelMiss] = ClearingHouse.cdaProcess chM7 [])
    ∧ (puVolMiss.cancel = false ∧ ¬puVolMiss.volume = 0
      ∧ findPlayer chM7.players "M" = some (mkTrader "M" 7 1 [] TraderT.Miner none)
      ∧ ClearingHouse.cdaProcess chM7 [puVolMiss] = Except.error "Failed to update") :=
  ⟨⟨rfl, by simp [chM7, houseWith, mkTrader, puCancelMiss, ClearingHouse.cancel_player_order,
        findPlayer_cons, Player.cancel_order, removeOrder],
    (order_miss_handling.1 chM7 puCancelMiss [] "ERROR: order not found to cancel" rfl
      (by simp [chM7, houseWith, mkTrader, puCancelMiss, ClearingHouse.cancel_player_order,
        findPlayer_cons, Player.cancel_order, removeOrder])).1⟩,
   ⟨rfl, by norm_num [puVolMiss],
    by simp [chM7, houseWith, mkTrader, puVolMiss, findPlayer_cons],
    (order_miss_handling.2 chM7 puVolMiss [] (mkTrader "M" 7 1 [] TraderT.Miner none) rfl
      (by norm_num [puVolMiss])
      (by simp [chM7, houseWith, mkTrader, puVolMiss, findPlayer_cons])
      (by simp [mkTrader])).1⟩⟩

/-- C3 counterexample: a `PlayerUpdate` whose payer "M" exists in the
house but whose order id is missing makes `cda_cross_update` abort with
the `.expect` panic instead of logging, skipping and continuing. -/
theorem cda_order_miss_is_fatal :
    (findPlayer chM7.players "M").isSome = true
    ∧ ClearingHouse.cda_cross_update chM7 resCdaMiss = Except.error "Failed to update" := by
  constructor
  · simp [chM7, houseWith, mkTrader, findPlayer_cons]
  · simp [ClearingHouse.cda_cross_update, resCdaMiss, ClearingHouse.cdaProcess,
      ClearingHouse.cdaStep, puVolMiss, ClearingHouse.update_player, chM7, houseWith,
      mkTrader, findPlayer_cons, findPlayer_nil, balInvUpd, mpUpd, modifyPlayer,
      ClearingHouse.update_player_order_vol, Player.update_order_vol, minerUpdVol]

/-! ### C4 — update_player_order_vol and the ≤ 0 drop rule -/

/-- C4: `update_player_order_vol` adds the delta to the order's remaining
quantity, but the `Miner` implementation of `update_order_vol` never
removes the order: delta -5 on quantity 3 leaves the order resting with
quantity -2 (contradicting the documented "if result ≤ 0, remove the
order entirely", which the spec-modelled investor path does satisfy). -/
theorem miner_order_not_dropped :
    ClearingHouse.update_player_order_vol chMinerOrd "M" 1 (-5)
      = Except.ok (houseWith
          [mkTrader "M" 0 0 [{ ordQty3 with quantity := -2 }] TraderT.Miner none])
    ∧ (3 : ℚ) + (-5) ≤ 0
    ∧ ClearingHouse.update_player_order_vol chInvOrd "I" 1 (-5)
      = Except.ok (houseWith [mkTrader "I" 0 0 [] TraderT.Investor none]) := by
  refine ⟨?_, by norm_num, ?_⟩
  · simp [ClearingHouse.update_player_order_vol, chMinerOrd, houseWith, mkTrader,
      findPlayer_cons, Player.update_order_vol, minerUpdVol, ordQty3, modifyPlayer]
    norm_num
  · simp [ClearingHouse.update_player_order_vol, chInvOrd, houseWith, mkTrader,
      findPlayer_cons, Player.update_order_vol, traderUpdVol, ordQty3I, ordQty3,
      modifyPlayer]
    norm_num

/-! ### C1 — gas conservation per block -/

theorem sumFor_append (l1 l2 : List (String × ℚ)) (id : String) :
    sumFor (l1 ++ l2) id = sumFor l1 id + sumFor l2 id := by
  induction l1 with
  | nil => simp [sumFor]
  | cons c rest ih => simp [sumFor, ih, add_assoc]

theorem submitterGas_cons (o : Order) (rest : List Order) (id : String) :
    submitterGas (o :: rest) id
      = (if id = o.trader_id then o.gas else 0) + submitterGas rest id := by
  by_cases h : o.trader_id = id
  · have hif : (if id = o.trader_id then o.gas else 0) = o.gas := if_pos h.symm
    rw [hif]
    simp [submitterGas, List.filter_cons, h]
  · have h' : ¬(id = o.trader_id) := fun hc => h hc.symm
    rw [if_neg h']
    simp [submitterGas, List.filter_cons, h]

theorem sumFor_frame_pairs (frame : List Order) (id : String) :
    sumFor (frame.map (fun o => (o.trader_id, o.gas))) id = submitterGas frame id := by
  induction frame with
  | nil => rfl
  | cons o rest ih =>
    have hstep : sumFor ((o.trader_id, o.gas) :: rest.map (fun o => (o.trader_id, o.gas))) id
        = (if o.trader_id = id then o.gas else 0)
          + sumFor (rest.map (fun o => (o.trader_id, o.gas))) id := rfl
    rw [List.map_cons, hstep, ih, submitterGas_cons]
    by_cases h : id = o.trader_id
    · simp [h]
    · have h2 : ¬(o.trader_id = id) := fun hc => h hc.symm
      simp [h, h2]

theorem applyFeesList_eq_map (tc : List (String × ℚ)) (ps : List Player)
    (hnd : (playerKeys ps).Nodup) :
    ClearingHouse.applyFeesList ps tc
      = ps.map (fun p => { p with balance := p.balance - sumFor tc p.trader_id }) := by
  induction tc generalizing ps with
  | nil =>
    have hid : ∀ p ∈ ps, ({ p with balance := p.balance - sumFor [] p.trader_id } : Player) = p := by
      intro p _
      simp [sumFor]
    rw [ClearingHouse.applyFeesList, List.map_congr_left hid]
    simp
  | cons c rest ih =>
    have hpres : ∀ p : Player,
        (({ p with balance := p.balance - c.2 } : Player)).trader_id = p.trader_id :=
      fun _ => rfl
    have hnd' : (playerKeys (modifyPlayer ps c.1
        (fun p => { p with balance := p.balance - c.2 }))).Nodup := by
      rw [keys_modifyPlayer ps c.1 _ hpres]
      exact hnd
    rw [ClearingHouse.applyFeesList, ih _ hnd',
      modifyPlayer_eq_map ps c.1 _ hnd, List.map_map]
    refine List.map_congr_left ?_
    intro p _
    by_cases h : p.trader_id = c.1
    · simp [Function.comp, h, sumFor, sub_sub]
    · have h' : ¬(c.1 = p.trader_id) := fun hc => h hc.symm
      simp [Function.comp, h, h', sumFor]

theorem sum_map_sub_players (ps : List Player) (f g : Player → ℚ) :
    (ps.map (fun p => f p - g p)).sum = (ps.map f).sum - (ps.map g).sum := by
  induction ps with
  | nil => simp
  | cons p rest ih =>
    simp [ih]
    ring

theorem sum_submitterGas (ps : List Player) (frame : List Order)
    (hnd : (playerKeys ps).Nodup)
    (hcov : ∀ o ∈ frame, ∃ p ∈ ps, p.trader_id = o.trader_id) :
    (ps.map (fun p => submitterGas frame p.trader_id)).sum = Miner.gasTotal frame := by
  induction frame with
  | nil => simp [submitterGas, Miner.gasTotal]
  | cons o rest ih =>
    have hsplit : ∀ p : Player, submitterGas (o :: rest) p.trader_id
        = (if p.trader_id = o.trader_id then o.gas else 0)
          + submitterGas rest p.trader_id := by
      intro p
      exact submitterGas_cons o rest p.trader_id
    rw [List.map_congr_left (fun p _ => hsplit p), List.sum_map_add,
      sum_if_single ps o.trader_id o.gas hnd (hcov o (by simp)),
      ih (fun q hq => hcov q (by simp [hq]))]
    simp [Miner.gasTotal]

/-- C1 (amended): when every frame order's submitter AND the miner are
registered, `collect_gas` + `apply_gas_fees` appends exactly the frame's
gas total to the gas-fees sequence, debits each submitter its gas, credits
the miner the total, and the balance changes sum to zero. -/
theorem gas_conservation :
    ∀ (ch : ClearingHouse) (minerId : String) (frame : List Order),
      (playerKeys ch.players).Nodup →
      (∀ o ∈ frame, ∃ p ∈ ch.players, p.trader_id = o.trader_id) →
      (∃ p ∈ ch.players, p.trader_id = minerId) →
      (ch.apply_gas_fees (Miner.collect_gas minerId frame).1
          (Miner.collect_gas minerId frame).2).gas_fees
        = ch.gas_fees ++ [Miner.gasTotal frame]
      ∧ (ch.apply_gas_fees (Miner.collect_gas minerId frame).1
          (Miner.collect_gas minerId frame).2).players
        = ch.players.map (fun p =>
            { p with balance := p.balance - submitterGas frame p.trader_id
                + (if p.trader_id = minerId then Miner.gasTotal frame else 0) })
      ∧ balSum (ch.apply_gas_fees (Miner.collect_gas minerId frame).1
          (Miner.collect_gas minerId frame).2).players = balSum ch.players := by
  intro ch minerId frame hnd hcov hminer
  have hplayers : (ch.apply_gas_fees (Miner.collect_gas minerId frame).1
      (Miner.collect_gas minerId frame).2).players
      = ch.players.map (fun p =>
          { p with balance := p.balance - submitterGas frame p.trader_id
              + (if p.trader_id = minerId then Miner.gasTotal frame else 0) }) := by
    have h1 : (ch.apply_gas_fees (Miner.collect_gas minerId frame).1
        (Miner.collect_gas minerId frame).2).players
        = ClearingHouse.applyFeesList ch.players (Miner.collect_gas minerId frame).1 := rfl
    rw [h1, Miner.collect_gas, applyFeesList_eq_map _ _ hnd]
    refine List.map_congr_left ?_
    intro p _
    rw [sumFor_append, sumFor_frame_pairs]
    by_cases h : p.trader_id = minerId
    · have hs : sumFor [(minerId, -(Miner.gasTotal frame))] p.trader_id
          = -(Miner.gasTotal frame) := by simp [sumFor, h.symm]
      rw [hs, if_pos h]
      have harith : p.balance - (submitterGas frame p.trader_id + -(Miner.gasTotal frame))
          = p.balance - submitterGas frame p.trader_id + Miner.gasTotal frame := by ring
      rw [harith]
    · have h' : ¬(minerId = p.trader_id) := fun hc => h hc.symm
      have hs : sumFor [(minerId, -(Miner.gasTotal frame))] p.trader_id = 0 := by
        simp [sumFor, h']
      rw [hs, if_neg h]
      have harith : p.balance - (submitterGas frame p.trader_id + 0)
          = p.balance - submitterGas frame p.trader_id + 0 := by ring
      rw [harith]
  refine ⟨rfl, hplayers, ?_⟩
  rw [hplayers]
  unfold balSum
  rw [List.map_map]
  have hpt : ∀ p ∈ ch.players,
      (Player.balance ∘ fun p =>
        ({ p with balance := p.balance - submitterGas frame p.trader_id
            + (if p.trader_id = minerId then Miner.gasTotal frame else 0) } : Player)) p
      = (p.balance - submitterGas frame p.trader_id)
        + (if p.trader_id = minerId then Miner.gasTotal frame else 0) := by
    intro p _
    rfl
  rw [List.map_congr_left hpt, List.sum_map_add,
    sum_map_sub_players ch.players Player.balance
      (fun p => submitterGas frame p.trader_id),
    sum_submitterGas ch.players frame hnd hcov,
    sum_if_single ch.players minerId (Miner.gasTotal frame) hnd hminer]
  ring

/-- Witness for C1 at a concrete two-player house (investor "A" with
balance 10, miner "M"), one frame order with gas 5. -/
theorem gas_conservation_witness :
    ((playerKeys chAM.players).Nodup
      ∧ (∀ o ∈ frameG, ∃ p ∈ chAM.players, p.trader_id = o.trader_id)
      ∧ (∃ p ∈ chAM.players, p.trader_id = "M"))
    ∧ balSum (chAM.apply_gas_fees (Miner.collect_gas "M" frameG).1
        (Miner.collect_gas "M" frameG).2).players = balSum chAM.players :=
  ⟨⟨by decide, by decide, by decide⟩,
   (gas_conservation chAM "M" frameG (by decide) (by decide) (by decide)).2.2⟩

/-- C1 counterexample: with every frame order's submitter registered but
the miner id "M" NOT registered, the gas is withdrawn and logged but the
miner credit is silently dropped: the balance changes sum to -5, not 0. -/
theorem gas_credit_lost_without_miner :
    (∀ o ∈ frameG, (findPlayer chA10.players o.trader_id).isSome = true)
    ∧ (chA10.apply_gas_fees (Miner.collect_gas "M" frameG).1
        (Miner.collect_gas "M" frameG).2).gas_fees = [5]
    ∧ balSum (chA10.apply_gas_fees (Miner.collect_gas "M" frameG).1
        (Miner.collect_gas "M" frameG).2).players - balSum chA10.players = -5
    ∧ ((-5 : ℚ) ≠ 0) := by
  refine ⟨by decide, ?_, ?_, by norm_num⟩
  · simp [ClearingHouse.apply_gas_fees, chA10, houseWith, Miner.collect_gas,
      Miner.gasTotal, frameG, ordGas5]
  · simp [ClearingHouse.apply_gas_fees, chA10, houseWith, mkTrader,
      Miner.collect_gas, Miner.gasTotal, frameG, ordGas5,
      ClearingHouse.applyFeesList, modifyPlayer, balSum]

/-! ### C5 — the strategic front-run selection -/

theorem mem_insertAsc (o : Order) (l : List Order) (a : Order) :
    a ∈ Miner.insertAsc o l ↔ a = o ∨ a ∈ l := by
  induction l with
  | nil => simp [Miner.insertAsc]
  | cons x xs ih =>
    by_cases h : x.price < o.price
    · rw [show Miner.insertAsc o (x :: xs) = x :: Miner.insertAsc o xs from by
        simp [Miner.insertAsc, h]]
      simp [ih]
      tauto
    · rw [show Miner.insertAsc o (x :: xs) = o :: x :: xs from by
        simp [Miner.insertAsc, h]]
      simp

theorem mem_sortByPrice (l : List Order) (a : Order) :
    a ∈ Miner.sortByPrice l ↔ a ∈ l := by
  induction l with
  | nil => simp [Miner.sortByPrice]
  | cons o rest ih => simp [Miner.sortByPrice, mem_insertAsc, ih]

theorem pairwise_insertAsc (o : Order) (l : List Order)
    (h : l.Pairwise (fun a b => a.price ≤ b.price)) :
    (Miner.insertAsc o l).Pairwise (fun a b => a.price ≤ b.price) := by
  induction l with
  | nil => simp [Miner.insertAsc]
  | cons x xs ih =>
    rw [List.pairwise_cons] at h
    by_cases hlt : x.price < o.price
    · rw [show Miner.insertAsc o (x :: xs) = x :: Miner.insertAsc o xs from by
        simp [Miner.insertAsc, hlt]]
      rw [List.pairwise_cons]
      refine ⟨?_, ih h.2⟩
      intro b hb
      rcases (mem_insertAsc o xs b).mp hb with hb' | hb'
      · exact hb' ▸ le_of_lt hlt
      · exact h.1 b hb'
    · rw [show Miner.insertAsc o (x :: xs) = o :: x :: xs from by
        simp [Miner.insertAsc, hlt]]
      rw [List.pairwise_cons]
      refine ⟨?_, List.pairwise_cons.mpr h⟩
      intro b hb
      rcases List.mem_cons.mp hb with hb' | hb'
      · exact hb' ▸ le_of_not_lt hlt
      · exact le_trans (le_of_not_lt hlt) (h.1 b hb')

theorem pairwise_sortByPrice (l : List Order) :
    (Miner.sortByPrice l).Pairwise (fun a b => a.price ≤ b.price) := by
  induction l with
  | nil => simp [Miner.sortByPrice]
  | cons o rest ih => exact pairwise_insertAsc o _ ih

theorem selectBest_fst_some (l : List Order) (x : Order) (ba : Option Order) :
    (Miner.selectBest l (some x) ba).1 = some x := by
  induction l generalizing ba with
  | nil => rfl
  | cons o rest ih =>
    cases ho : o.trade_type <;> simp [Miner.selectBest, ho, ih]

theorem selectBest_fst (l : List Order) (ba : Option Order) :
    (Miner.selectBest l none ba).1 = firstBid l := by
  induction l generalizing ba with
  | nil => rfl
  | cons o rest ih =>
    cases ho : o.trade_type
    · simp [Miner.selectBest, ho, firstBid, selectBest_fst_some]
    · simp [Miner.selectBest, ho, firstBid, ih]

theorem selectBest_snd (l : List Order) (bb ba : Option Order) :
    (Miner.selectBest l bb ba).2
      = match lastAsk l with
        | some a => some a
        | none => ba := by
  induction l generalizing bb ba with
  | nil => rfl
  | cons o rest ih =>
    cases ho : o.trade_type
    · simp only [Miner.selectBest, ho]
      rw [ih]
      simp [lastAsk, ho]
    · rw [show Miner.selectBest (o :: rest) bb ba = Miner.selectBest rest bb (some o) from by
        simp [Miner.selectBest, ho]]
      rw [ih]
      cases hl : lastAsk rest <;> simp [lastAsk, ho, hl]

theorem selectBest_snd_some (l : List Order) (bb : Option Order) (a : Order)
    (h : (Miner.selectBest l bb none).2 = some a) : lastAsk l = some a := by
  rw [selectBest_snd l bb none] at h
  cases hl : lastAsk l
  · rw [hl] at h
    exact absurd h (by simp)
  · rw [hl] at h
    exact h

theorem firstBid_mem (l : List Order) (b : Order) (h : firstBid l = some b) :
    b ∈ l ∧ b.trade_type = TradeType.Bid := by
  induction l with
  | nil => simp [firstBid] at h
  | cons o rest ih =>
    cases ho : o.trade_type
    · simp only [firstBid, ho] at h
      obtain rfl := Option.some.inj h
      exact ⟨by simp, ho⟩
    · simp only [firstBid, ho] at h
      obtain ⟨hm, hb⟩ := ih h
      exact ⟨List.mem_cons_of_mem _ hm, hb⟩

theorem firstBid_min (l : List Order) (b : Order)
    (hp : l.Pairwise (fun a b => a.price ≤ b.price)) (h : firstBid l = some b) :
    ∀ x ∈ l, x.trade_type = TradeType.Bid → b.price ≤ x.price := by
  induction l with
  | nil => simp [firstBid] at h
  | cons o rest ih =>
    rw [List.pairwise_cons] at hp
    cases ho : o.trade_type
    · simp only [firstBid, ho] at h
      obtain rfl := Option.some.inj h
      intro x hx _
      rcases List.mem_cons.mp hx with rfl | hx'
      · exact le_refl _
      · exact hp.1 x hx'
    · simp only [firstBid, ho] at h
      intro x hx hxb
      rcases List.mem_cons.mp hx with rfl | hx'
      · rw [ho] at hxb
        exact absurd hxb (by simp)
      · exact ih hp.2 h x hx' hxb

theorem lastAsk_none (l : List Order) (h : lastAsk l = none) :
    ∀ x ∈ l, x.trade_type ≠ TradeType.Ask := by
  induction l with
  | nil => simp
  | cons o rest ih =>
    cases ho : o.trade_type
    · simp only [lastAsk, ho] at h
      intro x hx
      rcases List.mem_cons.mp hx with rfl | hx'
      · rw [ho]
        simp
      · exact ih h x hx'
    · simp only [lastAsk, ho] at h
      cases hl : lastAsk rest <;> rw [hl] at h <;> simp at h

theorem lastAsk_mem (l : List Order) (a : Order) (h : lastAsk l = some a) :
    a ∈ l ∧ a.trade_type = TradeType.Ask := by
  induction l with
  | nil => simp [lastAsk] at h
  | cons o rest ih =>
    cases ho : o.trade_type
    · simp only [lastAsk, ho] at h
      obtain ⟨hm, ha⟩ := ih h
      exact ⟨List.mem_cons_of_mem _ hm, ha⟩
    · simp only [lastAsk, ho] at h
      cases hl : lastAsk rest
      · rw [hl] at h
        obtain rfl := Option.some.inj h
        exact ⟨by simp, ho⟩
      · rw [hl] at h
        obtain rfl := Option.some.inj h
        obtain ⟨hm, ha⟩ := ih hl
        exact ⟨List.mem_cons_of_mem _ hm, ha⟩

theorem lastAsk_max (l : List Order) (a : Order)
    (hp : l.Pairwise (fun a b => a.price ≤ b.price)) (h : lastAsk l = some a) :
    ∀ x ∈ l, x.trade_type = TradeType.Ask → x.price ≤ a.price := by
  induction l with
  | nil => simp [lastAsk] at h
  | cons o rest ih =>
    rw [List.pairwise_cons] at hp
    cases ho : o.trade_type
    · simp only [lastAsk, ho] at h
      intro x hx hxa
      rcases List.mem_cons.mp hx with rfl | hx'
      · rw [ho] at hxa
        exact absurd hxa (by simp)
      · exact ih hp.2 h x hx' hxa
    · simp only [lastAsk, ho] at h
      cases hl : lastAsk rest
      · rw [hl] at h
        obtain rfl := Option.some.inj h
        intro x hx hxa
        rcases List.mem_cons.mp hx with rfl | hx'
        · exact le_refl _
        · exact absurd hxa (lastAsk_none rest hl x hx')
      · rw [hl] at h
        obtain rfl := Option.some.inj h
        intro x hx hxa
        rcases List.mem_cons.mp hx with rfl | hx'
        · exact hp.1 _ (lastAsk_mem rest _ hl).1
        · exact ih hp.2 hl x hx' hxa

theorem frontRunFinish (minerId : String) (freshId : ℕ) (frame : List Order)
    (o : Order) (frame' : List Order) (c : Order)
    (h : Except.ok (Miner.frontRunCopy minerId freshId c frame)
          = (Except.ok (o, frame') : Except String (Order × List Order)))
    (hmem : c ∈ frame)
    (hbid : c.trade_type = TradeType.Bid →
      ∀ x ∈ frame, x.trade_type = TradeType.Bid → c.price ≤ x.price)
    (hask : c.trade_type = TradeType.Ask →
      ∀ x ∈ frame, x.trade_type = TradeType.Ask → x.price ≤ c.price) :
    o.trader_id = minerId ∧ o.gas = 0 ∧ o.order_id = freshId ∧ frame' = o :: frame
    ∧ ∃ src ∈ frame,
        o = { src with trader_id := minerId, gas := 0, order_id := freshId }
        ∧ (src.trade_type = TradeType.Bid →
            ∀ x ∈ frame, x.trade_type = TradeType.Bid → src.price ≤ x.price)
        ∧ (src.trade_type = TradeType.Ask →
            ∀ x ∈ frame, x.trade_type = TradeType.Ask → x.price ≤ src.price) := by
  have hp := Except.ok.inj h
  have h1 : ({ c with trader_id := minerId, gas := 0, order_id := freshId } : Order) = o :=
    congrArg Prod.fst hp
  have h2 : ({ c with trader_id := minerId, gas := 0, order_id := freshId } : Order) :: frame
      = frame' := congrArg Prod.snd hp
  subst h1
  exact ⟨rfl, rfl, rfl, h2.symm, c, hmem, rfl, hbid, hask⟩

/-- C5 (amended): a successful `strategic_front_run` inserts at frame
position 0 a copy (miner's trader_id, gas = 0, the fresh order id) of some
frame order; because the sort is ASCENDING by price, the bid candidate is
a LOWEST-priced frame bid and the ask candidate a HIGHEST-priced frame ask
(the source comments claim the opposite).  Part two characterizes the
choice when BOTH candidates exist, with bid_profit = best_ask − bid.price
and ask_profit = ask.price − best_bid: both profits negative refuses to
front-run; exactly one non-negative picks that side; both non-negative
picks the candidate with the SMALLER profit, ties going to the ask. -/
theorem strategic_front_run_selects :
    (∀ (minerId : String) (freshId : ℕ) (frame : List Order) (bb ba : ℚ)
      (o : Order) (frame' : List Order),
      Miner.strategic_front_run minerId freshId frame bb ba = Except.ok (o, frame') →
      o.trader_id = minerId ∧ o.gas = 0 ∧ o.order_id = freshId ∧ frame' = o :: frame
      ∧ ∃ src ∈ frame,
          o = { src with trader_id := minerId, gas := 0, order_id := freshId }
          ∧ (src.trade_type = TradeType.Bid →
              ∀ x ∈ frame, x.trade_type = TradeType.Bid → src.price ≤ x.price)
          ∧ (src.trade_type = TradeType.Ask →
              ∀ x ∈ frame, x.trade_type = TradeType.Ask → x.price ≤ src.price))
    ∧ (∀ (minerId : String) (freshId : ℕ) (frame : List Order) (bb ba : ℚ)
        (b a : Order),
        Miner.selectBest (Miner.sortByPrice frame) none none = (some b, some a) →
        (ba - b.price < 0 ∧ a.price - bb < 0 →
          Miner.strategic_front_run minerId freshId frame bb ba
            = Except.error "No orders in the frame good enough to front-run")
        ∧ (0 ≤ ba - b.price ∧ a.price - bb < 0 →
          Miner.strategic_front_run minerId freshId frame bb ba
            = Except.ok (Miner.frontRunCopy minerId freshId b frame))
        ∧ (ba - b.price < 0 ∧ 0 ≤ a.price - bb →
          Miner.strategic_front_run minerId freshId frame bb ba
            = Except.ok (Miner.frontRunCopy minerId freshId a frame))
        ∧ (0 ≤ ba - b.price ∧ 0 ≤ a.price - bb →
          (a.price - bb ≤ ba - b.price →
            Miner.strategic_front_run minerId freshId frame bb ba
              = Except.ok (Miner.frontRunCopy minerId freshId a frame))
          ∧ (ba - b.price < a.price - bb →
            Miner.strategic_front_run minerId freshId frame bb ba
              = Except.ok (Miner.frontRunCopy minerId freshId b frame)))) := by
  constructor
  · -- part one: copy mechanics and candidate extremality
      intro minerId freshId frame bb ba o frame' h
      unfold Miner.strategic_front_run at h
      by_cases hlen : frame.length = 0
      · rw [if_pos hlen] at h
        exact absurd h (by simp)
      rw [if_neg hlen] at h
      have hbw : ∀ b : Order,
          (Miner.selectBest (Miner.sortByPrice frame) none none).1 = some b →
          b ∈ frame
          ∧ (b.trade_type = TradeType.Bid →
              ∀ x ∈ frame, x.trade_type = TradeType.Bid → b.price ≤ x.price)
          ∧ (b.trade_type = TradeType.Ask →
              ∀ x ∈ frame, x.trade_type = TradeType.Ask → x.price ≤ b.price) := by
        intro b hb
        rw [selectBest_fst] at hb
        obtain ⟨hmem_s, hbid_b⟩ := firstBid_mem _ _ hb
        refine ⟨(mem_sortByPrice frame b).mp hmem_s, ?_, ?_⟩
        · intro _ x hx hxb
          exact firstBid_min _ _ (pairwise_sortByPrice frame) hb x
            ((mem_sortByPrice frame x).mpr hx) hxb
        · intro habs
          rw [hbid_b] at habs
          exact absurd habs (by simp)
      have haw : ∀ (bb' : Option Order) (a : Order),
          (Miner.selectBest (Miner.sortByPrice frame) bb' none).2 = some a →
          a ∈ frame
          ∧ (a.trade_type = TradeType.Bid →
              ∀ x ∈ frame, x.trade_type = TradeType.Bid → a.price ≤ x.price)
          ∧ (a.trade_type = TradeType.Ask →
              ∀ x ∈ frame, x.trade_type = TradeType.Ask → x.price ≤ a.price) := by
        intro bb' a ha
        have hla := selectBest_snd_some _ _ _ ha
        obtain ⟨hmem_s, hask_a⟩ := lastAsk_mem _ _ hla
        refine ⟨(mem_sortByPrice frame a).mp hmem_s, ?_, ?_⟩
        · intro habs
          rw [hask_a] at habs
          exact absurd habs (by simp)
        · intro _ x hx hxa
          exact lastAsk_max _ _ (pairwise_sortByPrice frame) hla x
            ((mem_sortByPrice frame x).mpr hx) hxa
      split at h
      · exact absurd h (by simp)
      · rename_i b heq
        obtain ⟨hm, hb, ha⟩ := hbw b (by rw [heq])
        exact frontRunFinish minerId freshId frame o frame' b h hm hb ha
      · rename_i a heq
        obtain ⟨hm, hb, ha⟩ := haw none a (by rw [heq])
        exact frontRunFinish minerId freshId frame o frame' a h hm hb ha
      · rename_i b a heq
        have hbfacts := hbw b (by rw [heq])
        have hafacts := haw none a (by rw [heq])
        split at h
        · exact absurd h (by simp)
        · split at h
          · obtain ⟨hm, hb2, ha2⟩ := hbfacts
            exact frontRunFinish minerId freshId frame o frame' b h hm hb2 ha2
          · split at h
            · obtain ⟨hm, hb2, ha2⟩ := hafacts
              exact frontRunFinish minerId freshId frame o frame' a h hm hb2 ha2
            · split at h
              · obtain ⟨hm, hb2, ha2⟩ := hafacts
                exact frontRunFinish minerId freshId frame o frame' a h hm hb2 ha2
              · obtain ⟨hm, hb2, ha2⟩ := hbfacts
                exact frontRunFinish minerId freshId frame o frame' b h hm hb2 ha2
  · -- part two: the profit-based selection rules
      intro minerId freshId frame bb ba b a hsel
      have hfb : firstBid (Miner.sortByPrice frame) = some b := by
        rw [← selectBest_fst (Miner.sortByPrice frame) none, hsel]
      have hmem : b ∈ frame := (mem_sortByPrice frame b).mp (firstBid_mem _ _ hfb).1
      have hlen : ¬(frame.length = 0) := by
        cases frame
        · simp at hmem
        · simp
      have hbase : Miner.strategic_front_run minerId freshId frame bb ba
          = (if ba - b.price < 0 ∧ a.price - bb < 0 then
              Except.error "No orders in the frame good enough to front-run"
            else if 0 ≤ ba - b.price ∧ a.price - bb < 0 then
              Except.ok (Miner.frontRunCopy minerId freshId b frame)
            else if ba - b.price < 0 ∧ 0 ≤ a.price - bb then
              Except.ok (Miner.frontRunCopy minerId freshId a frame)
            else if a.price - bb ≤ ba - b.price then
              Except.ok (Miner.frontRunCopy minerId freshId a frame)
            else
              Except.ok (Miner.frontRunCopy minerId freshId b frame)) := by
        unfold Miner.strategic_front_run
        rw [if_neg hlen, hsel]
      refine ⟨?_, ?_, ?_, ?_⟩
      · rintro ⟨h1, h2⟩
        rw [hbase, if_pos ⟨h1, h2⟩]
      · rintro ⟨h1, h2⟩
        rw [hbase, if_neg (fun hc => absurd hc.1 (not_lt.mpr h1)), if_pos ⟨h1, h2⟩]
      · rintro ⟨h1, h2⟩
        rw [hbase, if_neg (fun hc => absurd hc.2 (not_lt.mpr h2)),
          if_neg (fun hc => absurd hc.1 (not_le.mpr h1)), if_pos ⟨h1, h2⟩]
      · rintro ⟨h1, h2⟩
        constructor
        · intro hle
          rw [hbase, if_neg (fun hc => absurd hc.1 (not_lt.mpr h1)),
            if_neg (fun hc => absurd hc.2 (not_lt.mpr h2)),
            if_neg (fun hc => absurd hc.1 (not_lt.mpr h1)), if_pos hle]
        · intro hlt
          rw [hbase, if_neg (fun hc => absurd hc.1 (not_lt.mpr h1)),
            if_neg (fun hc => absurd hc.2 (not_lt.mpr h2)),
            if_neg (fun hc => absurd hc.1 (not_lt.mpr h1)),
            if_neg (not_le.mpr hlt)]

/-- Witness for C5: front-running a frame holding a bid priced 8 and an
ask priced 13 against book best bid 8 / best ask 15.  Both candidates are
profitable (bid_profit 7, ask_profit 5) and the ask — the smaller profit
— is copied; the copy mechanics come from part one of the theorem. -/
theorem strategic_front_run_selects_witness :
    (Miner.selectBest (Miner.sortByPrice frameW) none none = (some bidW, some askW)
      ∧ (0 : ℚ) ≤ 15 - bidW.price ∧ (0 : ℚ) ≤ askW.price - 8
      ∧ askW.price - 8 ≤ (15 : ℚ) - bidW.price)
    ∧ Miner.strategic_front_run "MINER" 77 frameW 8 15
        = Except.ok (Miner.frontRunCopy "MINER" 77 askW frameW)
    ∧ frWA.trader_id = "MINER" ∧ frWA.gas = 0 ∧ frWA.order_id = 77 := by
  have hsel : Miner.selectBest (Miner.sortByPrice frameW) none none
      = (some bidW, some askW) := rfl
  have h1 : (0 : ℚ) ≤ 15 - bidW.price := by norm_num [bidW]
  have h2 : (0 : ℚ) ≤ askW.price - 8 := by norm_num [askW, bidW]
  have h3 : askW.price - 8 ≤ (15 : ℚ) - bidW.price := by norm_num [askW, bidW]
  have hrun := ((strategic_front_run_selects.2 "MINER" 77 frameW 8 15 bidW askW
    hsel).2.2.2 ⟨h1, h2⟩).1 h3
  have hok : Miner.strategic_front_run "MINER" 77 frameW 8 15
      = Except.ok (frWA, frWA :: frameW) := by
    rw [hrun]
    rfl
  have hconc := strategic_front_run_selects.1 "MINER" 77 frameW 8 15 frWA
    (frWA :: frameW) hok
  exact ⟨⟨hsel, h1, h2, h3⟩, hrun, hconc.1, hconc.2.1, hconc.2.2.1⟩

/-- C5 counterexample: both frame orders are bids (prices 5 and 10) and
both are profitable against best ask 20, yet the inserted copy carries
price 5 — the LOWEST-priced frame bid, not the highest-priced one the
claim (and the source's own comments) describe. -/
theorem front_run_picks_lowest_priced_bid :
    (∀ x ∈ frameC5, x.trade_type = TradeType.Bid)
    ∧ bidP10 ∈ frameC5 ∧ bidP10.price = 10
    ∧ (Miner.strategic_front_run "MINER" 99 frameC5 1 20).toOption.map
        (fun r => r.1.price) = some 5
    ∧ ¬((5 : ℚ) = 10) := by
  refine ⟨by decide, by decide, by decide, by decide, by decide⟩

/-! ### C8 — lock discipline of the public operations -/

theorem maxHeldAux_tax_flatten (n : ℕ) :
    ∀ (c m : ℕ) (rest : List LockEvent),
      maxHeldAux c m ((List.replicate n add_taxTrace).flatten ++ rest)
        = maxHeldAux c m rest := by
  induction n with
  | zero => intro c m rest; simp
  | succ k ih =>
    intro c m rest
    simp only [List.replicate_succ, List.flatten_cons, add_taxTrace, List.append_assoc,
      List.cons_append, maxHeldAux, coarseFive]
    exact ih c m rest

theorem maxHeldAux_mp_flatten (flags : List Bool) :
    ∀ (m : ℕ) (rest : List LockEvent),
      maxHeldAux 1 m ((flags.map (fun b =>
          if b then [LockEvent.acq LockId.makerProfitsL,
                     LockEvent.rel LockId.makerProfitsL]
          else ([] : List LockEvent))).flatten ++ rest)
        = maxHeldAux 1 (if flags.any id then max m 2 else m) rest := by
  induction flags with
  | nil => intro m rest; simp
  | cons b bs ih =>
    intro m rest
    cases b
    · simpa [List.flatten_cons] using ih m rest
    · have hshape : ((true :: bs).map (fun b =>
            if b then [LockEvent.acq LockId.makerProfitsL,
                       LockEvent.rel LockId.makerProfitsL]
            else ([] : List LockEvent))).flatten ++ rest
          = LockEvent.acq LockId.makerProfitsL :: LockEvent.rel LockId.makerProfitsL ::
            ((bs.map (fun b =>
              if b then [LockEvent.acq LockId.makerProfitsL,
                         LockEvent.rel LockId.makerProfitsL]
              else ([] : List LockEvent))).flatten ++ rest) := by simp
      rw [hshape]
      rw [show ∀ t, maxHeldAux 1 m (LockEvent.acq LockId.makerProfitsL ::
            LockEvent.rel LockId.makerProfitsL :: t) = maxHeldAux 1 (max m 2) t
          from fun t => rfl]
      rw [ih (max m 2) rest]
      by_cases h : bs.any id = true
      · simp [h, max_assoc]
      · simp [h]

theorem maxHeldAux_final (c m : ℕ) :
    maxHeldAux c m [LockEvent.rel LockId.playersL] = m := by
  simp [maxHeldAux, coarseFive]

/-- C8 (amended): every public ClearingHouse operation holds at most one
of the five coarse locks at a time EXCEPT `update_player` and
`liquidate`, which lock the maker-profits mutex while still holding the
players-map lock whenever the touched player is a Maker (two of the five
held simultaneously); `tax_makers` additionally holds the total-tax mutex
under the players lock, but that mutex is not one of the five. -/
theorem lock_discipline :
    maxHeld playersOnlyTrace = 1
    ∧ maxHeld apply_gas_feesTrace = 1
    ∧ maxHeld update_player_orderTrace = 1
    ∧ maxHeld add_taxTrace = 0
    ∧ (∀ n, maxHeld (tax_makersTrace n) = 1)
    ∧ maxHeld (update_playerTrace false) = 1
    ∧ maxHeld (update_playerTrace true) = 2
    ∧ (∀ flags : List Bool,
        maxHeld (liquidateTrace flags) = if flags.any id then 2 else 1) := by
  refine ⟨by decide, by decide, by decide, by decide, ?_, by decide, by decide, ?_⟩
  · intro n
    unfold maxHeld tax_makersTrace playersOnlyTrace
    have hshape : ([LockEvent.acq LockId.playersL, LockEvent.rel LockId.playersL]
          ++ [LockEvent.acq LockId.playersL]
          ++ (List.replicate n add_taxTrace).flatten ++ [LockEvent.rel LockId.playersL])
        = LockEvent.acq LockId.playersL :: LockEvent.rel LockId.playersL ::
          LockEvent.acq LockId.playersL ::
          ((List.replicate n add_taxTrace).flatten ++ [LockEvent.rel LockId.playersL]) := by
      simp
    rw [hshape]
    rw [show ∀ t, maxHeldAux 0 0 (LockEvent.acq LockId.playersL ::
          LockEvent.rel LockId.playersL :: LockEvent.acq LockId.playersL :: t)
        = maxHeldAux 1 1 t from fun t => rfl]
    rw [maxHeldAux_tax_flatten n 1 1 [LockEvent.rel LockId.playersL], maxHeldAux_final]
  · intro flags
    unfold maxHeld liquidateTrace
    have hshape : ([LockEvent.acq LockId.playersL]
          ++ (flags.map (fun b =>
              if b then [LockEvent.acq LockId.makerProfitsL,
                         LockEvent.rel LockId.makerProfitsL]
              else ([] : List LockEvent))).flatten
          ++ [LockEvent.rel LockId.playersL])
        = LockEvent.acq LockId.playersL ::
          ((flags.map (fun b =>
              if b then [LockEvent.acq LockId.makerProfitsL,
                         LockEvent.rel LockId.makerProfitsL]
              else ([] : List LockEvent))).flatten
            ++ [LockEvent.rel LockId.playersL]) := by simp
    rw [hshape]
    rw [show ∀ t, maxHeldAux 0 0 (LockEvent.acq LockId.playersL :: t)
        = maxHeldAux 1 1 t from fun t => rfl]
    rw [maxHeldAux_mp_flatten flags 1 [LockEvent.rel LockId.playersL], maxHeldAux_final]
    by_cases h : flags.any id = true
    · simp [h]
    · simp [h]

/-- C8 counterexample: `update_player` on a Maker holds the players-map
lock and the maker-profits lock (two of the five coarse locks)
simultaneously. -/
theorem update_player_holds_two_locks :
    maxHeld (update_playerTrace true) = 2
    ∧ ¬(maxHeld (update_playerTrace true) ≤ 1) := by decide

end MarketSim
